import Mathlib

/-!
# http-server-go: wire codec, router and handlers

A shallow embedding of `server/server.go` and `server/server_helpers.go`.

* A Go `string` is a list of bytes; `len` is the length of the list.
* A Go `map[string]string` is `Option (Finmap _)`: `none` is the nil map, and a
  non-nil map is a finite map (no order, one value per key).
* A run-time panic (index or slice bounds out of range) is the `error` side of
  `Except Panic`.
* `for k, v := range m` visits the entries of `m` in an order the language does
  not fix; the encoder takes that order as an argument (`RangeOrder`).
* The file system is a store keyed by path, threaded through the handlers; a read or a
  write can fail for any cause.
* `handleConnection` is run on the result of its one `conn.Read`; a panic that leaves it is
  the `error` side of its result.
-/

namespace HttpServer

/-! ## Go values -/

/-- A Go string: an immutable sequence of bytes. -/
abbrev GoString := List UInt8

/-- The bytes of an ASCII string literal of the source. -/
def ascii (s : String) : GoString :=
  s.toList.map (fun c => UInt8.ofNat c.toNat)

/-- A non-nil Go map from strings to strings. -/
abbrev HeaderMap := Finmap (fun _ : GoString => GoString)

/-- A Go value of type map[string]string; none is the nil map. -/
abbrev StringMap := Option HeaderMap

instance : DecidableEq StringMap
  | none, none => isTrue rfl
  | some a, some b => decidable_of_iff (a = b) (by simp)
  | none, some _ => isFalse (by simp)
  | some _, none => isFalse (by simp)

/-- One entry of a map, as a range loop yields it. -/
abbrev Entry := Sigma (fun _ : GoString => GoString)

/-- Reading m[k]: the stored value, or the zero value (the empty string) when the key
is absent or the map is nil. -/
def StringMap.get (m : StringMap) (k : GoString) : GoString :=
  match m with
  | none => []
  | some h => (h.lookup k).getD []

/-- The orders in which a range loop may visit a map: every entry exactly once. -/
def RangeOrder (m : HeaderMap) (order : List Entry) : Prop :=
  (order : Multiset Entry) = m.entries

instance (m : HeaderMap) (order : List Entry) : Decidable (RangeOrder m order) :=
  inferInstanceAs (Decidable ((order : Multiset Entry) = m.entries))

/-- Run-time panics of the Go code. -/
inductive Panic where
  | indexOutOfRange (index length : Nat)
  | sliceOutOfRange (low : Int) (length : Nat)
  deriving DecidableEq, Repr

instance {ε α : Type} [DecidableEq ε] [DecidableEq α] : DecidableEq (Except ε α)
  | .ok a, .ok b => decidable_of_iff (a = b) (by simp)
  | .error a, .error b => decidable_of_iff (a = b) (by simp)
  | .ok _, .error _ => isFalse (by simp)
  | .error _, .ok _ => isFalse (by simp)

/-- The index expression xs[i]: panics when i is not below len(xs). -/
def index {α : Type} (xs : List α) (i : Nat) : Except Panic α :=
  match xs[i]? with
  | some x => .ok x
  | none => .error (.indexOutOfRange i xs.length)

/-- The slice expression xs[low:]: panics unless 0 ≤ low ≤ len(xs). -/
def sliceFrom {α : Type} (xs : List α) (low : Int) : Except Panic (List α) :=
  if 0 ≤ low ∧ low ≤ (xs.length : Int) then .ok (xs.drop low.toNat)
  else .error (.sliceOutOfRange low xs.length)

/-- The verb %d of fmt.Sprintf on a non-negative int: its decimal digits. -/
def formatInt (n : Nat) : GoString :=
  (Nat.toDigits 10 n).map (fun c => UInt8.ofNat c.toNat)

/-! ## Package `strings` -/

/-- The function strings.HasPrefix. -/
def HasPrefix (s pre : GoString) : Bool :=
  pre.isPrefixOf s

/-- The function strings.TrimPrefix: s without the leading pre, or s unchanged when it
does not start with pre. -/
def TrimPrefix (s pre : GoString) : GoString :=
  if HasPrefix s pre then s.drop pre.length else s

/-- The position of the first instance of substr in the string, if there is one. -/
def indexOf (substr : GoString) : GoString → Option Nat
  | [] => if substr = [] then some 0 else none
  | c :: rest =>
    if substr.isPrefixOf (c :: rest) then some 0
    else (indexOf substr rest).map (· + 1)

/-- The function strings.Index: the index of the first instance of substr in s, or -1. -/
def Index (s substr : GoString) : Int :=
  match indexOf substr s with
  | some i => (i : Int)
  | none => -1

/-- The loop of strings.genSplit for a non-empty separator: at most cuts times, cut the
string at the first instance of sep; the remainder is the last element. -/
def genSplitLoop (sep : GoString) : Nat → GoString → List GoString
  | 0, s => [s]
  | cuts + 1, s =>
    match indexOf sep s with
    | none => [s]
    | some m => s.take m :: genSplitLoop sep cuts (s.drop (m + sep.length))

/-- The function strings.SplitN for a non-empty separator and n ≥ 0: at most n substrings,
the last one being the unsplit remainder; n = 0 gives nil. (genSplit caps n at len(s)+1.) -/
def SplitN (s sep : GoString) (n : Nat) : List GoString :=
  if n = 0 then [] else genSplitLoop sep (min n (s.length + 1) - 1) s

/-- The function strings.Split for a non-empty separator: all substrings between the
instances of sep. genSplit runs with n = Count(s, sep) + 1, which is at most len(s) + 1,
and its loop stops at the first failed Index, so len(s) cuts always suffice. -/
def Split (s sep : GoString) : List GoString :=
  genSplitLoop sep s.length s

/-- The replacement rune U+FFFD that the decoders return for an invalid encoding. -/
def RuneError : Nat := 0xFFFD

/-- A UTF-8 continuation byte, 0x80 to 0xBF. -/
def isContinuation (b : UInt8) : Bool :=
  0x80 ≤ b.toNat ∧ b.toNat ≤ 0xBF

/-- The function utf8.DecodeRuneInString: the first rune of s and its width in bytes.
An empty string gives (RuneError, 0), an invalid or truncated encoding (RuneError, 1). -/
def DecodeRuneInString (s : GoString) : Nat × Nat :=
  match s with
  | [] => (RuneError, 0)
  | s0 :: rest =>
    let x := s0.toNat
    if x < 0x80 then (x, 1)
    else if x < 0xC2 then (RuneError, 1)
    else if x < 0xE0 then
      match rest with
      | s1 :: _ =>
        if isContinuation s1 then ((x % 32) * 64 + s1.toNat % 64, 2) else (RuneError, 1)
      | _ => (RuneError, 1)
    else if x < 0xF0 then
      let lo := if x = 0xE0 then 0xA0 else 0x80
      let hi := if x = 0xED then 0x9F else 0xBF
      match rest with
      | s1 :: s2 :: _ =>
        if lo ≤ s1.toNat ∧ s1.toNat ≤ hi ∧ isContinuation s2 then
          ((x % 16) * 4096 + (s1.toNat % 64) * 64 + s2.toNat % 64, 3)
        else (RuneError, 1)
      | _ => (RuneError, 1)
    else if x < 0xF5 then
      let lo := if x = 0xF0 then 0x90 else 0x80
      let hi := if x = 0xF4 then 0x8F else 0xBF
      match rest with
      | s1 :: s2 :: s3 :: _ =>
        if lo ≤ s1.toNat ∧ s1.toNat ≤ hi ∧ isContinuation s2 ∧ isContinuation s3 then
          ((x % 8) * 262144 + (s1.toNat % 64) * 4096 + (s2.toNat % 64) * 64 + s3.toNat % 64, 4)
        else (RuneError, 1)
      | _ => (RuneError, 1)
    else (RuneError, 1)

/-- The function utf8.DecodeLastRuneInString: the last rune of s and its width. It backs up
over at most three bytes to the nearest byte that can start a rune and decodes from there. -/
def DecodeLastRuneInString (s : GoString) : Nat × Nat :=
  match s.getLast? with
  | none => (RuneError, 0)
  | some last =>
    if last.toNat < 0x80 then (last.toNat, 1)
    else
      let stop : Int := s.length
      let lim : Int := max (stop - 4) 0
      let runeStart : Int → Bool := fun i => !isContinuation (s.getD i.toNat 0)
      let found : Option Int :=
        ([stop - 2, stop - 3, stop - 4] : List Int).find?
          (fun (i : Int) => decide (lim ≤ i) && runeStart i)
      let start : Int := found.getD (lim - 1)
      let start : Int := max start 0
      let (r, size) := DecodeRuneInString (s.drop start.toNat)
      if start + size ≠ stop then (RuneError, 1) else (r, size)

/-- The function unicode.IsSpace: the code points with the White_Space property. -/
def IsSpace (r : Nat) : Bool :=
  (0x09 ≤ r ∧ r ≤ 0x0D) ∨ r = 0x20 ∨ r = 0x85 ∨ r = 0xA0 ∨ r = 0x1680 ∨
    (0x2000 ≤ r ∧ r ≤ 0x200A) ∨ r = 0x2028 ∨ r = 0x2029 ∨ r = 0x202F ∨ r = 0x205F ∨
    r = 0x3000

/-- The loop of strings.TrimLeftFunc with unicode.IsSpace: drop leading runes while they
are white space. The first argument bounds the number of runes visited. -/
def trimLeftSpaceLoop : Nat → GoString → GoString
  | 0, _ => []
  | fuel + 1, s =>
    match s with
    | [] => []
    | _ :: _ =>
      let (r, size) := DecodeRuneInString s
      if IsSpace r then trimLeftSpaceLoop fuel (s.drop size) else s

/-- The function strings.TrimLeftFunc applied to unicode.IsSpace. -/
def TrimLeftSpace (s : GoString) : GoString :=
  trimLeftSpaceLoop s.length s

/-- The loop of strings.lastIndexFunc with unicode.IsSpace and truth false: the index of
the last rune of s[0:i] that is not white space, or -1. -/
def lastNonSpaceLoop (s : GoString) : Nat → Nat → Int
  | 0, _ => -1
  | fuel + 1, i =>
    if i = 0 then -1
    else
      let (r, size) := DecodeLastRuneInString (s.take i)
      if IsSpace r then lastNonSpaceLoop s fuel (i - size) else ((i - size : Nat) : Int)

/-- The function strings.TrimRightFunc applied to unicode.IsSpace. -/
def TrimRightSpace (s : GoString) : GoString :=
  let i := lastNonSpaceLoop s s.length s.length
  let i : Int :=
    if 0 ≤ i ∧ 0x80 ≤ (s.getD i.toNat 0).toNat then
      i + (DecodeRuneInString (s.drop i.toNat)).2
    else i + 1
  s.take i.toNat

/-- The table strings.asciiSpace: tab, line feed, vertical tab, form feed, carriage
return and space. -/
def asciiSpace (c : UInt8) : Bool :=
  c = 9 ∨ c = 10 ∨ c = 11 ∨ c = 12 ∨ c = 13 ∨ c = 32

/-- The second loop of strings.TrimSpace, on the reversed remainder of the string: drop
trailing ASCII white space, falling back to TrimRightFunc at a non-ASCII byte. -/
def trimSpaceRight : List UInt8 → GoString
  | [] => []
  | c :: rest =>
    if 0x80 ≤ c.toNat then TrimRightSpace (c :: rest).reverse
    else if asciiSpace c then trimSpaceRight rest
    else (c :: rest).reverse

/-- The first loop of strings.TrimSpace: drop leading ASCII white space, falling back to
TrimFunc at a non-ASCII byte; then trim the end. -/
def trimSpaceLeft : GoString → GoString
  | [] => trimSpaceRight []
  | c :: rest =>
    if 0x80 ≤ c.toNat then TrimRightSpace (TrimLeftSpace (c :: rest))
    else if asciiSpace c then trimSpaceLeft rest
    else trimSpaceRight (c :: rest).reverse

/-- The function strings.TrimSpace: s without leading and trailing Unicode white space. -/
def TrimSpace (s : GoString) : GoString :=
  trimSpaceLeft s

/-! ## `server.go`: constants and types -/

def StatusOK : GoString := ascii "200 OK"

def StatusCreated : GoString := ascii "201 Created"

def StatusNotFound : GoString := ascii "404 Not Found"

def StatusInternalServerError : GoString := ascii "500 Internal Server Error"

def ContentTypeText : GoString := ascii "text/plain"

def ContentTypeOctetStream : GoString := ascii "application/octet-stream"

def CRLF : GoString := ascii "\r\n"

def CRLF2 : GoString := ascii "\r\n\r\n"

/-- The struct Request. -/
structure Request where
  Method : GoString := []
  Path : GoString := []
  Body : GoString := []
  Headers : StringMap := none

instance : DecidableEq Request := fun a b =>
  decidable_of_iff
    (a.Method = b.Method ∧ a.Path = b.Path ∧ a.Body = b.Body ∧ a.Headers = b.Headers)
    (by cases a; cases b; simp)

/-- The struct Response; a field left out of a composite literal has its zero value. -/
structure Response where
  StatusCode : GoString := []
  Headers : StringMap := none
  Body : GoString := []

instance : DecidableEq Response := fun a b =>
  decidable_of_iff
    (a.StatusCode = b.StatusCode ∧ a.Headers = b.Headers ∧ a.Body = b.Body)
    (by cases a; cases b; simp)

/-! ## The file store -/

/-- The causes for which a file operation can fail. -/
inductive FsError where
  | notExist
  | permission
  | isDirectory
  | other (errno : Nat)
  deriving DecidableEq, Repr

/-- The file store behind os.ReadFile and os.WriteFile: a byte store keyed by path. The map
holds the bytes of the paths that can be read. The store also fixes at which paths a write
is refused, and why, and for which cause the read of a path outside the map fails (the path
does not exist, is a directory, may not be read, or another cause). -/
structure FileStore where
  files : Finmap (fun _ : GoString => GoString)
  writeFault : GoString → Option FsError
  readFault : GoString → FsError

/-- The function os.ReadFile on the store: the bytes at the path, or the error with which
the read of that path fails. -/
def FileStore.ReadFile (fs : FileStore) (name : GoString) : Except FsError GoString :=
  match fs.files.lookup name with
  | some data => .ok data
  | none => .error (fs.readFault name)

/-- The function os.WriteFile on the store: create or truncate the file at the path and
write the data, or fail and leave the store as it was. -/
def FileStore.WriteFile (fs : FileStore) (name data : GoString) : Except FsError FileStore :=
  match fs.writeFault name with
  | some e => .error e
  | none => .ok { fs with files := fs.files.insert name data }

/-! ## `server.go`: handlers and router -/

/-- The function handleError (the log line it prints is not modelled). -/
def handleError (_err : FsError) (_message : GoString) (statusCode : GoString) : Response :=
  { StatusCode := statusCode }

/-- The function handleEcho. -/
def handleEcho (path : GoString) : Response :=
  let nextSegment := TrimPrefix path (ascii "/echo/")
  { StatusCode := StatusOK, Body := nextSegment }

/-- The function handleUserAgent. -/
def handleUserAgent (headers : StringMap) : Response :=
  let userAgent := headers.get (ascii "User-Agent")
  { StatusCode := StatusOK, Body := userAgent }

/-- The function handleGetFiles. -/
def handleGetFiles (fs : FileStore) (path directory : GoString) : Response :=
  let filename := TrimPrefix path (ascii "/files/")
  match fs.ReadFile (directory ++ ascii "/" ++ filename) with
  | .error err => handleError err (ascii "Error reading file: ") StatusNotFound
  | .ok fileContents =>
    { StatusCode := StatusOK,
      Headers := some (Finmap.singleton (ascii "Content-Type") (ascii "application/octet-stream")),
      Body := fileContents }

/-- The function handlePostFiles; it returns the response and the store it leaves. -/
def handlePostFiles (fs : FileStore) (request : Request) (directory : GoString) :
    Response × FileStore :=
  let filename := TrimPrefix request.Path (ascii "/files/")
  match fs.WriteFile (directory ++ ascii "/" ++ filename) request.Body with
  | .error err => (handleError err (ascii "Error writing file: ") StatusInternalServerError, fs)
  | .ok fs' => ({ StatusCode := StatusCreated }, fs')

/-- The cases of the switch in handleRequest, in source order. -/
inductive Case where
  | echo
  | userAgent
  | getFiles
  | postFiles
  | root
  | default
  deriving DecidableEq, Repr

/-- The case of the switch in handleRequest that is taken: the first one whose guard is
true. -/
def handleRequest.case (request : Request) : Case :=
  if request.Method = ascii "GET" ∧ HasPrefix request.Path (ascii "/echo") then .echo
  else if request.Method = ascii "GET" ∧ HasPrefix request.Path (ascii "/user-agent") then
    .userAgent
  else if request.Method = ascii "GET" ∧ HasPrefix request.Path (ascii "/files") then .getFiles
  else if request.Method = ascii "POST" ∧ HasPrefix request.Path (ascii "/files") then
    .postFiles
  else if request.Path = ascii "/" then .root
  else .default

/-- The function handleRequest; it returns the response and the store it leaves. -/
def handleRequest (fs : FileStore) (request : Request) (directory : GoString) :
    Response × FileStore :=
  match handleRequest.case request with
  | .echo => (handleEcho request.Path, fs)
  | .userAgent => (handleUserAgent request.Headers, fs)
  | .getFiles => (handleGetFiles fs request.Path directory, fs)
  | .postFiles => handlePostFiles fs request directory
  | .root => ({ StatusCode := StatusOK }, fs)
  | .default => ({ StatusCode := StatusNotFound }, fs)

/-! ## `server.go`: the wire codec -/

/-- The header loop of createRequest: up to the first empty line, split each line at the
first ": " and store the pair. -/
def createRequest.headerLoop : List GoString → HeaderMap → Except Panic HeaderMap
  | [], headers => .ok headers
  | line :: rest, headers =>
    if line = [] then .ok headers
    else do
      let parts := SplitN line (ascii ": ") 2
      let name ← index parts 0
      let value ← index parts 1
      createRequest.headerLoop rest (headers.insert name value)

/-- The function createRequest. -/
def createRequest (requestString : GoString) : Except Panic Request := do
  let lines := Split requestString CRLF
  let requestLine := Split (← index lines 0) (ascii " ")
  let method ← index requestLine 0
  let path ← index requestLine 1
  let headers ← createRequest.headerLoop (← sliceFrom lines 1) ∅
  let bodyStart := Index requestString CRLF2 + (CRLF2.length : Int)
  let body ← sliceFrom requestString bodyStart
  return { Method := method, Path := path, Body := body, Headers := some headers }

/-- The header map that writeResponse serialises (lines 164 to 173): the response's own
map, or a fresh one when it is nil, with Content-Type defaulted and Content-Length set. -/
def writeResponse.headers (response : Response) : HeaderMap :=
  let headers : HeaderMap :=
    match response.Headers with
    | none => ∅
    | some h => h
  let headers :=
    if ascii "Content-Type" ∈ headers then headers
    else headers.insert (ascii "Content-Type") (ascii "text/plain")
  headers.insert (ascii "Content-Length") (formatInt response.Body.length)

/-- The bytes that writeResponse writes to the connection (lines 175 to 183), the range
loop visiting the decorated headers in the given order. -/
def writeResponse (response : Response) (order : List Entry) : GoString :=
  let responseString := ascii "HTTP/1.1 " ++ response.StatusCode ++ CRLF
  let responseString :=
    order.foldl (fun acc e => acc ++ (e.1 ++ ascii ": " ++ e.2 ++ CRLF)) responseString
  let responseString := responseString ++ CRLF
  let responseString := responseString ++ response.Body
  responseString

/-! ## `server.go`: the connection -/

/-- The errors with which conn.Read can fail. -/
inductive ConnError where
  | closed
  | reset
  | other (errno : Nat)
  deriving DecidableEq, Repr

/-- The function handleConnection, run on the result of its single conn.Read (at most 1024
bytes are taken into the buffer) with the map range order chosen by the runtime. It returns
the bytes written to the connection, if any, and the store it leaves. A read error is logged
and the function returns. The function has a deferred conn.Close but no recover, so a
panic raised by createRequest leaves it: that is the error side of the result, and in Go a
panic that leaves the function a goroutine was started with stops the whole program. -/
def handleConnection (fs : FileStore) (read : Except ConnError GoString)
    (directory : GoString) (range : HeaderMap → List Entry) :
    Except Panic (Option GoString × FileStore) :=
  match read with
  | .error _ => .ok (none, fs)
  | .ok received => do
    let requestString := received.take 1024
    let request ← createRequest requestString
    let handled := handleRequest fs request directory
    let response := handled.1
    return (some (writeResponse response (range (writeResponse.headers response))), handled.2)

/-! ## `server_helpers.go` -/

/-- The header loop of ParseResponse: a line is split at the first ": " and stored when
that gives two parts; any other line is skipped. -/
def ParseResponse.headerLoop : List GoString → HeaderMap → HeaderMap
  | [], headers => headers
  | line :: rest, headers =>
    match SplitN line (ascii ": ") 2 with
    | [name, value] => ParseResponse.headerLoop rest (headers.insert name value)
    | _ => ParseResponse.headerLoop rest headers

/-- The function ParseResponse. -/
def ParseResponse (rawResponse : GoString) : Except Panic Response := do
  let parts := SplitN rawResponse CRLF2 2
  let headerPart ← index parts 0
  let body ← if parts.length > 1 then index parts 1 else pure []
  let lines := Split headerPart CRLF
  let statusLine ← index lines 0
  let first ← index (SplitN statusLine (ascii " ") 3) 1
  let second ← index (SplitN statusLine (ascii " ") 3) 2
  let statusCode := TrimSpace (first ++ ascii " " ++ second)
  let headers := ParseResponse.headerLoop (← sliceFrom lines 1) ∅
  return { StatusCode := statusCode, Headers := some headers, Body := body }

/-! ## Notions used to state the properties -/

/-- A header as it stands on the wire, without its line end: name, colon, space, value. -/
def headerLine (e : Entry) : GoString :=
  e.1 ++ ascii ": " ++ e.2

/-- The map left by storing the entries of a list, one after the other, into a map; a later
value replaces an earlier one stored under the same name. -/
def storeAll (headers : HeaderMap) (entries : List Entry) : HeaderMap :=
  entries.foldl (fun h e => h.insert e.1 e.2) headers

/-- A store that holds no file and refuses no write; every read finds no file. -/
def FileStore.empty : FileStore :=
  ⟨∅, fun _ => none, fun _ => .notExist⟩

/-- The first CRLF-delimited line of a text. -/
def firstLine (s : GoString) : GoString :=
  (Split s CRLF).headD []

/-- The CRLF-delimited lines of a text after the first one and before the first empty
line. -/
def headerLines (s : GoString) : List GoString :=
  ((Split s CRLF).drop 1).takeWhile (· ≠ [])

/-- The guard of a case of the switch in handleRequest, taken by itself. -/
def Case.guard (c : Case) (request : Request) : Bool :=
  match c with
  | .echo => request.Method = ascii "GET" ∧ HasPrefix request.Path (ascii "/echo")
  | .userAgent => request.Method = ascii "GET" ∧ HasPrefix request.Path (ascii "/user-agent")
  | .getFiles => request.Method = ascii "GET" ∧ HasPrefix request.Path (ascii "/files")
  | .postFiles => request.Method = ascii "POST" ∧ HasPrefix request.Path (ascii "/files")
  | .root => request.Path = ascii "/"
  | .default => true

/-- The body of a case of the switch in handleRequest, taken by itself. -/
def Case.body (c : Case) (fs : FileStore) (request : Request) (directory : GoString) :
    Response × FileStore :=
  match c with
  | .echo => (handleEcho request.Path, fs)
  | .userAgent => (handleUserAgent request.Headers, fs)
  | .getFiles => (handleGetFiles fs request.Path directory, fs)
  | .postFiles => handlePostFiles fs request directory
  | .root => ({ StatusCode := StatusOK }, fs)
  | .default => ({ StatusCode := StatusNotFound }, fs)

/-- A dispatcher that tries the guards of the given cases in the given order, runs the body
of the first case whose guard holds, and falls back to the 404 default when none does. -/
def dispatchInOrder (cases : List Case) (fs : FileStore) (request : Request)
    (directory : GoString) : Response × FileStore :=
  match cases.find? (fun c => c.guard request) with
  | some c => c.body fs request directory
  | none => Case.default.body fs request directory

/-- The routing rules 1 to 5, in the order of the source. -/
def routingRules : List Case :=
  [.echo, .userAgent, .getFiles, .postFiles, .root]

/-! ## Lemmas: searching and splitting -/

theorem indexOf_of_isPrefixOf (sep s : GoString) (h : sep.isPrefixOf s = true) :
    indexOf sep s = some 0 := by
  cases s with
  | nil =>
    cases sep with
    | nil => simp [indexOf]
    | cons c t => simp at h
  | cons x s => simp only [indexOf, h, if_true]

theorem indexOf_sep_append (sep rest : GoString) : indexOf sep (sep ++ rest) = some 0 :=
  indexOf_of_isPrefixOf sep _ (by simp)

/-- Skipping a part of the string in which no instance of the separator starts. -/
theorem indexOf_append_of_noMatch (sep : GoString) :
    ∀ (a rest : GoString),
      (∀ i, i < a.length → sep.isPrefixOf ((a ++ rest).drop i) = false) →
      indexOf sep (a ++ rest) = (indexOf sep rest).map (· + a.length)
  | [], rest, _ => by simp
  | x :: a, rest, h => by
    have h0 : sep.isPrefixOf (x :: (a ++ rest)) = false := by
      simpa using h 0 (by simp)
    have ih := indexOf_append_of_noMatch sep a rest (fun i hi => by
      simpa using h (i + 1) (by simpa using hi))
    rw [List.cons_append, indexOf, if_neg (by simp [h0]), ih]
    cases indexOf sep rest with
    | none => rfl
    | some m => simp [Nat.add_assoc]

/-- A part of the string that does not hold the first byte of the separator is skipped. -/
theorem indexOf_append_of_not_mem (c : UInt8) (t a rest : GoString) (h : c ∉ a) :
    indexOf (c :: t) (a ++ rest) = (indexOf (c :: t) rest).map (· + a.length) := by
  apply indexOf_append_of_noMatch
  intro i hi
  rw [List.drop_append_of_le_length (Nat.le_of_lt hi)]
  have hne : a.drop i ≠ [] := by
    intro hd; have := congrArg List.length hd; simp at this; omega
  obtain ⟨y, ys, hy⟩ := List.exists_cons_of_ne_nil hne
  have hmem : y ∈ a := List.mem_of_mem_drop (hy ▸ List.mem_cons_self y ys)
  rw [hy]
  simp only [List.cons_append, List.isPrefixOf_cons₂, Bool.and_eq_false_imp, beq_iff_eq]
  intro hcy; exact absurd (hcy ▸ hmem) h

/-- A closed part of the string is skipped when no instance of the separator can start in
it, whatever follows. -/
theorem indexOf_append_of_clear (sep a rest : GoString)
    (h : ∀ i, i < a.length →
      sep.isPrefixOf (a.drop i) = false ∧ (a.drop i).isPrefixOf sep = false) :
    indexOf sep (a ++ rest) = (indexOf sep rest).map (· + a.length) := by
  apply indexOf_append_of_noMatch
  intro i hi
  rw [List.drop_append_of_le_length (Nat.le_of_lt hi)]
  obtain ⟨h1, h2⟩ := h i hi
  by_contra hc
  have hc' : sep <+: a.drop i ++ rest := by simpa using hc
  rcases List.prefix_or_prefix_of_prefix hc' (List.prefix_append (a.drop i) rest) with hp | hp
  · simp [List.isPrefixOf_iff_prefix.mpr hp] at h1
  · simp [List.isPrefixOf_iff_prefix.mpr hp] at h2

theorem indexOf_eq_none_of_not_mem (c : UInt8) (t a : GoString) (h : c ∉ a) :
    indexOf (c :: t) a = none := by
  have := indexOf_append_of_not_mem c t a [] h
  simpa [indexOf] using this

theorem indexOf_first (c : UInt8) (t a rest : GoString) (h : c ∉ a) :
    indexOf (c :: t) (a ++ (c :: t) ++ rest) = some a.length := by
  rw [List.append_assoc, indexOf_append_of_not_mem c t a _ h, indexOf_sep_append]
  simp

theorem genSplitLoop_of_indexOf (sep a rest : GoString) (n : Nat)
    (h : indexOf sep (a ++ sep ++ rest) = some a.length) :
    genSplitLoop sep (n + 1) (a ++ sep ++ rest) = a :: genSplitLoop sep n rest := by
  rw [genSplitLoop, h]
  simp [List.append_assoc]

theorem genSplitLoop_first (c : UInt8) (t a rest : GoString) (n : Nat) (h : c ∉ a) :
    genSplitLoop (c :: t) (n + 1) (a ++ (c :: t) ++ rest) =
      a :: genSplitLoop (c :: t) n rest :=
  genSplitLoop_of_indexOf _ _ _ _ (indexOf_first c t a rest h)

theorem genSplitLoop_of_not_mem (c : UInt8) (t a : GoString) (n : Nat) (h : c ∉ a) :
    genSplitLoop (c :: t) n a = [a] := by
  cases n with
  | zero => rfl
  | succ n => simp [genSplitLoop, indexOf_eq_none_of_not_mem c t a h]

/-- Splitting a string that starts with pieces, each followed by the separator. -/
theorem genSplitLoop_pieces (c : UInt8) (t : GoString) :
    ∀ (ls : List GoString) (x : GoString) (n : Nat),
      (∀ l ∈ ls, c ∉ l) → ls.length ≤ n →
      genSplitLoop (c :: t) n ((ls.map (· ++ (c :: t))).flatten ++ x) =
        ls ++ genSplitLoop (c :: t) (n - ls.length) x
  | [], x, n, _, _ => by simp
  | a :: ls, x, 0, _, hn => by simp at hn
  | a :: ls, x, n + 1, h, hn => by
    have ha : c ∉ a := h a (List.mem_cons_self a ls)
    have ih := genSplitLoop_pieces c t ls x n
      (fun l hm => h l (List.mem_cons_of_mem a hm)) (by simpa using hn)
    have := genSplitLoop_first c t a ((ls.map (· ++ (c :: t))).flatten ++ x) n ha
    simp only [List.map_cons, List.flatten_cons, List.cons_append, List.append_assoc,
      List.length_cons, Nat.add_sub_add_right] at this ⊢
    rw [this, ih]

theorem length_le_length_pieces (sep : GoString) (hsep : sep ≠ []) :
    ∀ ls : List GoString, ls.length ≤ ((ls.map (· ++ sep)).flatten).length
  | [] => by simp
  | a :: ls => by
    have ih := length_le_length_pieces sep hsep ls
    have : 0 < sep.length := List.length_pos.mpr hsep
    simp only [List.map_cons, List.flatten_cons, List.length_cons, List.length_append]
    omega

theorem Split_pieces (c : UInt8) (t : GoString) (ls : List GoString) (x : GoString)
    (h : ∀ l ∈ ls, c ∉ l) :
    ∃ more, Split ((ls.map (· ++ (c :: t))).flatten ++ x) (c :: t) = ls ++ more := by
  refine ⟨_, genSplitLoop_pieces c t ls x _ h ?_⟩
  rw [List.length_append]
  exact Nat.le_trans (length_le_length_pieces (c :: t) (by simp) ls) (Nat.le_add_right _ _)

/-- Splitting a first line followed by lines that each start with the separator. -/
theorem genSplitLoop_lines (c : UInt8) (t : GoString) :
    ∀ (ls : List GoString) (a : GoString) (n : Nat),
      c ∉ a → (∀ l ∈ ls, c ∉ l) → ls.length ≤ n →
      genSplitLoop (c :: t) n (a ++ (ls.map ((c :: t) ++ ·)).flatten) = a :: ls
  | [], a, n, ha, _, _ => by simpa using genSplitLoop_of_not_mem c t a n ha
  | l :: ls, a, 0, _, _, hn => by simp at hn
  | l :: ls, a, n + 1, ha, h, hn => by
    have ih := genSplitLoop_lines c t ls l n (h l (List.mem_cons_self l ls))
      (fun l' hm => h l' (List.mem_cons_of_mem l hm)) (by simpa using hn)
    have := genSplitLoop_first c t a (l ++ (ls.map ((c :: t) ++ ·)).flatten) n ha
    simp only [List.map_cons, List.flatten_cons, List.cons_append, List.append_assoc]
      at this ih ⊢
    rw [this, ih]

theorem length_le_length_lines (sep : GoString) (hsep : sep ≠ []) :
    ∀ ls : List GoString, ls.length ≤ ((ls.map (sep ++ ·)).flatten).length
  | [] => by simp
  | a :: ls => by
    have ih := length_le_length_lines sep hsep ls
    have : 0 < sep.length := List.length_pos.mpr hsep
    simp only [List.map_cons, List.flatten_cons, List.length_cons, List.length_append]
    omega

theorem Split_lines (c : UInt8) (t : GoString) (ls : List GoString) (a : GoString)
    (ha : c ∉ a) (h : ∀ l ∈ ls, c ∉ l) :
    Split (a ++ (ls.map ((c :: t) ++ ·)).flatten) (c :: t) = a :: ls := by
  apply genSplitLoop_lines c t ls a _ ha h
  rw [List.length_append]
  exact Nat.le_trans (length_le_length_lines (c :: t) (by simp) ls) (Nat.le_add_left _ _)

/-- Moving the separator from the end of every piece to its front. -/
theorem shift_separator (sep : GoString) :
    ∀ ls : List GoString,
      sep ++ (ls.map (· ++ sep)).flatten = (ls.map (sep ++ ·)).flatten ++ sep
  | [] => by simp
  | l :: ls => by
    have ih := shift_separator sep ls
    simp only [List.map_cons, List.flatten_cons, List.append_assoc]
    rw [ih]

theorem CRLF_eq : CRLF = [13, 10] := by decide

theorem CRLF2_eq : CRLF2 = [13, 10, 13, 10] := by decide

theorem colonSpace_eq : ascii ": " = [58, 32] := by decide

theorem space_eq : ascii " " = [32] := by decide

/-- The first blank line of a text made of a first line and further non-empty lines, none
holding a carriage return, is the one that follows the last of them. -/
theorem indexOf_CRLF2_lines :
    ∀ (ls : List GoString) (a rest : GoString),
      (13 : UInt8) ∉ a → (∀ l ∈ ls, (13 : UInt8) ∉ l ∧ l ≠ []) →
      indexOf CRLF2 ((a ++ (ls.map (CRLF ++ ·)).flatten) ++ CRLF2 ++ rest) =
        some (a ++ (ls.map (CRLF ++ ·)).flatten).length
  | [], a, rest, ha, _ => by
    rw [CRLF2_eq]
    simpa using indexOf_first 13 [10, 13, 10] a rest ha
  | l :: ls, a, rest, ha, h => by
    obtain ⟨hl13, hlne⟩ := h l (List.mem_cons_self l ls)
    have ih := indexOf_CRLF2_lines ls l rest hl13
      (fun l' hm => h l' (List.mem_cons_of_mem l hm))
    obtain ⟨y, l', rfl⟩ := List.exists_cons_of_ne_nil hlne
    have hy : (13 : UInt8) ≠ y := fun hy => hl13 (hy ▸ List.mem_cons_self _ _)
    rw [CRLF2_eq, CRLF_eq] at ih ⊢
    simp only [List.map_cons, List.flatten_cons, List.cons_append, List.append_assoc,
      List.nil_append] at ih ⊢
    rw [indexOf_append_of_not_mem 13 [10, 13, 10] a _ ha]
    have hb : ((13 : UInt8) == y) = false := by simpa using hy
    rw [indexOf, if_neg (by simp [List.isPrefixOf_cons₂, hb]), indexOf,
      if_neg (by simp [List.isPrefixOf_cons₂]), ih]
    simp only [Option.map_some', List.length_append, List.length_cons, Option.some.injEq]
    omega

theorem SplitN_two_of_indexOf (sep a rest : GoString) (hsep : sep ≠ [])
    (h : indexOf sep (a ++ sep ++ rest) = some a.length) :
    SplitN (a ++ sep ++ rest) sep 2 = [a, rest] := by
  have hlen : 0 < sep.length := List.length_pos.mpr hsep
  have hfuel : min 2 ((a ++ sep ++ rest).length + 1) - 1 = 0 + 1 := by
    simp only [List.length_append]; omega
  unfold SplitN
  rw [if_neg (by decide), hfuel, genSplitLoop_of_indexOf sep a rest 0 h]
  rfl

theorem SplitN_two_first (c : UInt8) (t a rest : GoString) (h : c ∉ a) :
    SplitN (a ++ (c :: t) ++ rest) (c :: t) 2 = [a, rest] :=
  SplitN_two_of_indexOf _ _ _ (by simp) (indexOf_first c t a rest h)

/-! ## Lemmas: decimal digits -/

theorem digitChar_of_lt_ten (d : Nat) (h : d < 10) :
    48 ≤ (Nat.digitChar d).toNat ∧ (Nat.digitChar d).toNat ≤ 57 := by
  interval_cases d <;> decide

theorem toDigitsCore_digits :
    ∀ (fuel n : Nat) (acc : List Char),
      (∀ c ∈ acc, 48 ≤ c.toNat ∧ c.toNat ≤ 57) →
      ∀ c ∈ Nat.toDigitsCore 10 fuel n acc, 48 ≤ c.toNat ∧ c.toNat ≤ 57
  | 0, n, acc, h => by simpa [Nat.toDigitsCore] using h
  | fuel + 1, n, acc, h => by
    have hd := digitChar_of_lt_ten (n % 10) (Nat.mod_lt n (by decide))
    have hacc : ∀ c ∈ Nat.digitChar (n % 10) :: acc, 48 ≤ c.toNat ∧ c.toNat ≤ 57 := by
      intro c hc
      rcases List.mem_cons.mp hc with rfl | hc
      · exact hd
      · exact h c hc
    simp only [Nat.toDigitsCore]
    split
    · exact hacc
    · exact toDigitsCore_digits fuel (n / 10) _ hacc

/-- Every byte that %d prints is an ASCII digit. -/
theorem formatInt_digits (n : Nat) : ∀ b ∈ formatInt n, 48 ≤ b.toNat ∧ b.toNat ≤ 57 := by
  intro b hb
  simp only [formatInt, List.mem_map] at hb
  obtain ⟨c, hc, rfl⟩ := hb
  have := toDigitsCore_digits (n + 1) n [] (by simp) c hc
  have h256 : c.toNat < 256 := by omega
  simp only [UInt8.toNat, UInt8.ofNat, Fin.ofNat]
  simp [Nat.mod_eq_of_lt h256]
  exact this

theorem not_mem_formatInt (b : UInt8) (n : Nat) (h : b.toNat < 48) : b ∉ formatInt n := by
  intro hb
  have := (formatInt_digits n b hb).1
  omega

/-! ## Lemmas: the decoder on a well-formed request -/

theorem headerLine_ne_nil (e : Entry) : headerLine e ≠ [] := by
  simp [headerLine, colonSpace_eq]

theorem not_mem_headerLine (c : UInt8) (e : Entry) (h1 : c ∉ e.1) (h2 : c ∉ e.2)
    (hc : c ≠ 58) (hs : c ≠ 32) : c ∉ headerLine e := by
  simp [headerLine, colonSpace_eq, h1, h2, hc, hs]

theorem SplitN_headerLine (e : Entry)
    (h : indexOf (ascii ": ") (headerLine e) = some e.1.length) :
    SplitN (headerLine e) (ascii ": ") 2 = [e.1, e.2] := by
  have := SplitN_two_of_indexOf (ascii ": ") e.1 e.2 (by simp [colonSpace_eq])
    (by simpa [headerLine] using h)
  simpa [headerLine] using this

/-- A header line whose name holds no colon is split at the separator after the name. -/
theorem indexOf_headerLine (e : Entry) (h : (58 : UInt8) ∉ e.1) :
    indexOf (ascii ": ") (headerLine e) = some e.1.length := by
  rw [colonSpace_eq, headerLine, colonSpace_eq]
  exact indexOf_first 58 [32] e.1 e.2 h

theorem createRequest_headerLoop_lines :
    ∀ (es : List Entry) (more : List GoString) (h0 : HeaderMap),
      (∀ e ∈ es, indexOf (ascii ": ") (headerLine e) = some e.1.length) →
      createRequest.headerLoop (es.map headerLine ++ [] :: more) h0 = .ok (storeAll h0 es)
  | [], more, h0, _ => by simp [createRequest.headerLoop, storeAll]
  | e :: es, more, h0, h => by
    have ih := createRequest_headerLoop_lines es more (h0.insert e.1 e.2)
      (fun e' hm => h e' (List.mem_cons_of_mem e hm))
    have hs := SplitN_headerLine e (h e (List.mem_cons_self e es))
    show createRequest.headerLoop (headerLine e :: (es.map headerLine ++ [] :: more)) h0 = _
    rw [createRequest.headerLoop, if_neg (headerLine_ne_nil e), hs]
    simpa [index, bind, Except.bind, storeAll] using ih

theorem createRequest_of_parts (m p v : GoString) (es : List Entry) (body : GoString)
    (hm : (32 : UInt8) ∉ m) (hp : (32 : UInt8) ∉ p)
    (hm13 : (13 : UInt8) ∉ m) (hp13 : (13 : UInt8) ∉ p) (hv13 : (13 : UInt8) ∉ v)
    (hes : ∀ e ∈ es, (13 : UInt8) ∉ e.1 ∧ (13 : UInt8) ∉ e.2 ∧
      indexOf (ascii ": ") (headerLine e) = some e.1.length) :
    createRequest (m ++ ascii " " ++ p ++ ascii " " ++ v ++ CRLF ++
        (es.map (fun e => headerLine e ++ CRLF)).flatten ++ CRLF ++ body) =
      .ok { Method := m, Path := p, Body := body, Headers := some (storeAll ∅ es) } := by
  have hline13 : ∀ l ∈ es.map headerLine, (13 : UInt8) ∉ l := by
    intro l hl
    obtain ⟨e, he, rfl⟩ := List.mem_map.mp hl
    exact not_mem_headerLine 13 e (hes e he).1 (hes e he).2.1 (by decide) (by decide)
  have hreq13 : (13 : UInt8) ∉ m ++ ascii " " ++ p ++ ascii " " ++ v := by
    simp [space_eq, hm13, hp13, hv13]
  -- the lines
  have hform1 : m ++ ascii " " ++ p ++ ascii " " ++ v ++ CRLF ++
        (es.map (fun e => headerLine e ++ CRLF)).flatten ++ CRLF ++ body =
      (((m ++ ascii " " ++ p ++ ascii " " ++ v) :: (es.map headerLine ++ [[]])).map
        (· ++ CRLF)).flatten ++ body := by
    simp [List.map_append, List.flatten_append, Function.comp_def]
  obtain ⟨more, hsplit⟩ := Split_pieces 13 [10]
    ((m ++ ascii " " ++ p ++ ascii " " ++ v) :: (es.map headerLine ++ [[]])) body (by
      intro l hl
      rcases List.mem_cons.mp hl with rfl | hl
      · exact hreq13
      · rcases List.mem_append.mp hl with hl | hl
        · exact hline13 l hl
        · simp at hl; simp [hl])
  rw [← CRLF_eq, ← hform1] at hsplit
  -- the request line
  obtain ⟨more', hsplit'⟩ := Split_pieces 32 [] [m, p] v (by
    intro l hl
    simp at hl
    rcases hl with rfl | rfl
    · exact hm
    · exact hp)
  have hform2 : (([m, p].map (· ++ [(32 : UInt8)])).flatten ++ v) =
      m ++ ascii " " ++ p ++ ascii " " ++ v := by
    simp [space_eq]
  rw [hform2, ← space_eq] at hsplit'
  -- the body
  have hform3 : m ++ ascii " " ++ p ++ ascii " " ++ v ++ CRLF ++
        (es.map (fun e => headerLine e ++ CRLF)).flatten ++ CRLF ++ body =
      ((m ++ ascii " " ++ p ++ ascii " " ++ v) ++
        ((es.map headerLine).map (CRLF ++ ·)).flatten) ++ CRLF2 ++ body := by
    have := shift_separator CRLF (es.map headerLine)
    simp only [List.map_map, Function.comp_def] at this
    have h2 : CRLF2 = CRLF ++ CRLF := by decide
    simp only [List.append_assoc, List.map_map, Function.comp_def, h2]
    rw [← List.append_assoc CRLF, this]
    simp
  have hidx := indexOf_CRLF2_lines (es.map headerLine)
    (m ++ ascii " " ++ p ++ ascii " " ++ v) body hreq13
    (fun l hl => ⟨hline13 l hl, by
      obtain ⟨e, _, rfl⟩ := List.mem_map.mp hl
      exact headerLine_ne_nil e⟩)
  rw [← hform3] at hidx
  have hbody : sliceFrom (m ++ ascii " " ++ p ++ ascii " " ++ v ++ CRLF ++
        (es.map (fun e => headerLine e ++ CRLF)).flatten ++ CRLF ++ body)
      (Index (m ++ ascii " " ++ p ++ ascii " " ++ v ++ CRLF ++
        (es.map (fun e => headerLine e ++ CRLF)).flatten ++ CRLF ++ body) CRLF2 +
        (CRLF2.length : Int)) = .ok body := by
    rw [Index, hidx]
    rw [hform3]
    generalize (m ++ ascii " " ++ p ++ ascii " " ++ v ++
      ((es.map headerLine).map (CRLF ++ ·)).flatten) = hd
    have hlen : CRLF2.length = 4 := by decide
    unfold sliceFrom
    rw [if_pos (by simp only [List.length_append, hlen]; omega)]
    have : ((hd.length : Int) + (CRLF2.length : Int)).toNat = (hd ++ CRLF2).length := by
      simp only [List.length_append]; omega
    rw [this, List.append_assoc, ← List.append_assoc hd, List.drop_left]
  have hloop := createRequest_headerLoop_lines es more ∅ (fun e he => (hes e he).2.2)
  generalize m ++ ascii " " ++ p ++ ascii " " ++ v ++ CRLF ++
    (es.map (fun e => headerLine e ++ CRLF)).flatten ++ CRLF ++ body = input at hsplit hbody ⊢
  generalize m ++ ascii " " ++ p ++ ascii " " ++ v = requestLine at hsplit hsplit' ⊢
  unfold createRequest
  rw [hsplit]
  simp only [index, List.cons_append, List.getElem?_cons_zero, bind, Except.bind, hsplit',
    List.getElem?_cons_succ, hbody]
  have hslice : sliceFrom (requestLine :: (es.map headerLine ++ [[]] ++ more)) 1 =
      .ok (es.map headerLine ++ [] :: more) := by
    simp [sliceFrom]
    omega
  rw [hslice]
  simp only [hloop]
  rfl

/-! ## Lemmas: the encoder and the response parser -/

theorem foldl_append_flatten {α : Type} (f : α → GoString) :
    ∀ (l : List α) (init : GoString),
      l.foldl (fun acc e => acc ++ f e) init = init ++ (l.map f).flatten
  | [], init => by simp
  | e :: l, init => by
    simp [foldl_append_flatten f l (init ++ f e)]

/-- The bytes written, as one concatenation: status line, header lines, blank line, body. -/
theorem writeResponse_eq (r : Response) (order : List Entry) :
    writeResponse r order =
      ascii "HTTP/1.1 " ++ r.StatusCode ++ CRLF ++
        (order.map (fun e => headerLine e ++ CRLF)).flatten ++ CRLF ++ r.Body := by
  unfold writeResponse
  simp only []
  rw [foldl_append_flatten (fun e : Entry => e.1 ++ ascii ": " ++ e.2 ++ CRLF)]
  rfl

/-- A first line and header lines, each ended by CRLF, and a blank line: the same text, seen
as the first line, the header lines each begun by CRLF, and the blank-line separator. -/
theorem wire_form (a : GoString) (es : List Entry) (body : GoString) :
    a ++ CRLF ++ (es.map (fun e => headerLine e ++ CRLF)).flatten ++ CRLF ++ body =
      (a ++ ((es.map headerLine).map (CRLF ++ ·)).flatten) ++ CRLF2 ++ body := by
  have := shift_separator CRLF (es.map headerLine)
  simp only [List.map_map, Function.comp_def] at this
  have h2 : CRLF2 = CRLF ++ CRLF := by decide
  simp only [List.append_assoc, List.map_map, Function.comp_def, h2]
  rw [← List.append_assoc CRLF, this]
  simp

theorem ParseResponse_headerLoop_lines :
    ∀ (es : List Entry) (h0 : HeaderMap),
      (∀ e ∈ es, indexOf (ascii ": ") (headerLine e) = some e.1.length) →
      ParseResponse.headerLoop (es.map headerLine) h0 = storeAll h0 es
  | [], h0, _ => by simp [ParseResponse.headerLoop, storeAll]
  | e :: es, h0, h => by
    have ih := ParseResponse_headerLoop_lines es (h0.insert e.1 e.2)
      (fun e' hm => h e' (List.mem_cons_of_mem e hm))
    have hs := SplitN_headerLine e (h e (List.mem_cons_self e es))
    show ParseResponse.headerLoop (headerLine e :: es.map headerLine) h0 = _
    rw [ParseResponse.headerLoop, hs]
    simpa [storeAll] using ih

/-- Parsing what the encoder wrote: the headers come back as the entries written, stored in
the order of the lines, and the body comes back whole. -/
theorem ParseResponse_writeResponse (r : Response) (order : List Entry)
    (first second : GoString)
    (hst : (13 : UInt8) ∉ r.StatusCode)
    (h1 : index (SplitN (ascii "HTTP/1.1 " ++ r.StatusCode) (ascii " ") 3) 1 = .ok first)
    (h2 : index (SplitN (ascii "HTTP/1.1 " ++ r.StatusCode) (ascii " ") 3) 2 = .ok second)
    (hes : ∀ e ∈ order, (13 : UInt8) ∉ e.1 ∧ (13 : UInt8) ∉ e.2 ∧
      indexOf (ascii ": ") (headerLine e) = some e.1.length) :
    ParseResponse (writeResponse r order) =
      .ok { StatusCode := TrimSpace (first ++ ascii " " ++ second),
            Headers := some (storeAll ∅ order), Body := r.Body } := by
  have hline13 : ∀ l ∈ order.map headerLine, (13 : UInt8) ∉ l := by
    intro l hl
    obtain ⟨e, he, rfl⟩ := List.mem_map.mp hl
    exact not_mem_headerLine 13 e (hes e he).1 (hes e he).2.1 (by decide) (by decide)
  have ha13 : (13 : UInt8) ∉ ascii "HTTP/1.1 " ++ r.StatusCode := by
    have : (13 : UInt8) ∉ ascii "HTTP/1.1 " := by decide
    simp [this, hst]
  have hidx := indexOf_CRLF2_lines (order.map headerLine)
    (ascii "HTTP/1.1 " ++ r.StatusCode) r.Body ha13
    (fun l hl => ⟨hline13 l hl, by
      obtain ⟨e, _, rfl⟩ := List.mem_map.mp hl
      exact headerLine_ne_nil e⟩)
  have hparts := SplitN_two_of_indexOf CRLF2 _ r.Body (by decide) hidx
  have hlines := Split_lines 13 [10] (order.map headerLine)
    (ascii "HTTP/1.1 " ++ r.StatusCode) ha13 hline13
  rw [← CRLF_eq] at hlines
  have hloop := ParseResponse_headerLoop_lines order ∅ (fun e he => (hes e he).2.2)
  rw [writeResponse_eq, wire_form]
  generalize ascii "HTTP/1.1 " ++ r.StatusCode = statusLine at *
  generalize statusLine ++ ((order.map headerLine).map (CRLF ++ ·)).flatten = headerPart at *
  unfold ParseResponse
  rw [hparts]
  simp only [index, List.getElem?_cons_zero, List.getElem?_cons_succ, bind, Except.bind,
    List.length_cons, List.length_nil, hlines]
  simp only [index] at h1 h2
  have hslice : sliceFrom (statusLine :: order.map headerLine) 1 =
      .ok (order.map headerLine) := by
    simp [sliceFrom]
  rw [hslice]
  simp only [hloop]
  revert h1 h2
  cases (SplitN statusLine (ascii " ") 3)[1]? <;> cases (SplitN statusLine (ascii " ") 3)[2]? <;>
    simp
  intro h1 h2
  subst h1 h2
  rfl

/-! ## Lemmas: maps and range orders -/

theorem rangeOrder_exists (m : HeaderMap) : ∃ order, RangeOrder m order :=
  Quot.exists_rep m.entries

theorem rangeOrder_nodupKeys {m : HeaderMap} {order : List Entry} (h : RangeOrder m order) :
    order.NodupKeys := by
  have := m.nodupKeys
  rw [← h] at this
  exact Multiset.coe_nodupKeys.mp this

theorem lookup_of_rangeOrder {m : HeaderMap} {order : List Entry} (h : RangeOrder m order)
    (k : GoString) : m.lookup k = order.dlookup k := by
  have hm : m = AList.toFinmap ⟨order, rangeOrder_nodupKeys h⟩ :=
    Finmap.ext (by simpa [RangeOrder] using h.symm)
  rw [hm, Finmap.lookup_toFinmap]
  rfl

theorem mem_of_rangeOrder {m : HeaderMap} {order : List Entry} (h : RangeOrder m order)
    (e : Entry) : e ∈ order ↔ m.lookup e.1 = some e.2 := by
  rw [lookup_of_rangeOrder h]
  obtain ⟨k, v⟩ := e
  exact (List.mem_dlookup_iff (rangeOrder_nodupKeys h)).symm

theorem lookup_storeAll :
    ∀ (es : List Entry) (h0 : HeaderMap) (k : GoString), es.NodupKeys →
      (storeAll h0 es).lookup k = (es.dlookup k).orElse (fun _ => h0.lookup k)
  | [], h0, k, _ => by simp [storeAll]
  | e :: es, h0, k, hnd => by
    obtain ⟨hk, hnd'⟩ := List.nodupKeys_cons.mp hnd
    have ih := lookup_storeAll es (h0.insert e.1 e.2) k hnd'
    have hunfold : storeAll h0 (e :: es) = storeAll (h0.insert e.1 e.2) es := rfl
    rw [hunfold, ih]
    by_cases hke : k = e.1
    · subst hke
      rw [List.dlookup_eq_none.mpr hk, Finmap.lookup_insert]
      obtain ⟨a, b⟩ := e
      simp
    · rw [Finmap.lookup_insert_of_ne _ hke]
      obtain ⟨a, b⟩ := e
      rw [List.dlookup_cons_ne _ _ hke]

/-- Storing the entries of a map into an empty map, in any range order, gives the map back. -/
theorem storeAll_of_rangeOrder {m : HeaderMap} {order : List Entry} (h : RangeOrder m order) :
    storeAll ∅ order = m := by
  apply Finmap.ext_lookup
  intro k
  rw [lookup_storeAll order ∅ k (rangeOrder_nodupKeys h), lookup_of_rangeOrder h,
    Finmap.lookup_empty]
  cases List.dlookup k order <;> rfl

theorem length_filter_key (order : List Entry) (k : GoString) :
    (order.filter (fun e => e.1 = k)).length =
      @List.count GoString instBEqOfDecidableEq k (order.map Sigma.fst) := by
  induction order with
  | nil => rfl
  | cons e es ih =>
    by_cases h : e.1 = k
    · simp [List.filter_cons, h, ih]
    · simp [List.filter_cons, h, ih, List.count_cons]

theorem count_keys_eq_one {m : HeaderMap} {k : GoString} (h : k ∈ m) :
    m.entries.keys.count k = 1 :=
  Multiset.count_eq_one_of_mem (Multiset.nodup_keys.mpr m.nodupKeys) (Finmap.mem_def.mp h)

/-! ## Lemmas: the decorated headers -/

theorem contentType_ne_contentLength : ascii "Content-Type" ≠ ascii "Content-Length" := by
  decide

theorem contentType_mem_headers (r : Response) :
    ascii "Content-Type" ∈ writeResponse.headers r := by
  unfold writeResponse.headers
  simp only []
  split <;> simp [Finmap.mem_insert, *]

theorem contentLength_mem_headers (r : Response) :
    ascii "Content-Length" ∈ writeResponse.headers r := by
  unfold writeResponse.headers
  simp [Finmap.mem_insert]

theorem lookup_contentLength_headers (r : Response) :
    (writeResponse.headers r).lookup (ascii "Content-Length") =
      some (formatInt r.Body.length) := by
  unfold writeResponse.headers
  simp [Finmap.lookup_insert]

theorem lookup_headers_of_ne (r : Response) (k : GoString)
    (hk : k ≠ ascii "Content-Length") :
    (writeResponse.headers r).lookup k =
      if k = ascii "Content-Type" then
        some (((r.Headers.getD ∅).lookup (ascii "Content-Type")).getD (ascii "text/plain"))
      else (r.Headers.getD ∅).lookup k := by
  have hget : (match r.Headers with | none => (∅ : HeaderMap) | some h => h) =
      r.Headers.getD ∅ := by
    cases r.Headers <;> rfl
  unfold writeResponse.headers
  simp only [hget]
  rw [Finmap.lookup_insert_of_ne _ hk]
  generalize r.Headers.getD ∅ = h
  by_cases hct : ascii "Content-Type" ∈ h
  · rw [if_pos hct]
    split
    · next hk' =>
      obtain ⟨v, hv⟩ := Finmap.mem_iff.mp hct
      rw [hk', hv]; rfl
    · rfl
  · rw [if_neg hct]
    split
    · next hk' =>
      rw [hk', Finmap.lookup_insert, Finmap.lookup_eq_none.mpr hct]; rfl
    · next hk' => rw [Finmap.lookup_insert_of_ne _ hk']

/-- The decorated headers of a response that carries no header of its own. -/
theorem headers_of_nil (status body : GoString) :
    writeResponse.headers { StatusCode := status, Body := body } =
      (Finmap.singleton (ascii "Content-Type") (ascii "text/plain")).insert
        (ascii "Content-Length") (formatInt body.length) := by
  unfold writeResponse.headers
  simp only []
  rw [if_neg (Finmap.not_mem_empty)]
  rfl

/-! ## Lemmas: prefixes and the router -/

theorem HasPrefix_append (a s pre : GoString) (h : pre.isPrefixOf a = true) :
    HasPrefix (a ++ s) pre = true := by
  have hp : pre <+: a := List.isPrefixOf_iff_prefix.mp h
  exact List.isPrefixOf_iff_prefix.mpr (hp.trans (List.prefix_append a s))

theorem TrimPrefix_append (pre s : GoString) : TrimPrefix (pre ++ s) pre = s := by
  unfold TrimPrefix
  rw [if_pos (HasPrefix_append pre s pre (by simp))]
  simp

theorem TrimPrefix_of_not (s pre : GoString) (h : HasPrefix s pre = false) :
    TrimPrefix s pre = s := by
  unfold TrimPrefix
  simp [h]

/-- A string cannot start with two strings neither of which starts with the other. -/
theorem HasPrefix_exclusive (p a b : GoString) (hab : a.isPrefixOf b = false)
    (hba : b.isPrefixOf a = false) (ha : HasPrefix p a = true) : HasPrefix p b = false := by
  by_contra hb
  have hb' : b <+: p := List.isPrefixOf_iff_prefix.mp (by simpa [HasPrefix] using hb)
  have ha' : a <+: p := List.isPrefixOf_iff_prefix.mp ha
  rcases List.prefix_or_prefix_of_prefix ha' hb' with h | h
  · simp [List.isPrefixOf_iff_prefix.mpr h] at hab
  · simp [List.isPrefixOf_iff_prefix.mpr h] at hba

theorem get_ne_post : ascii "GET" ≠ ascii "POST" := by decide

theorem case_echo (request : Request) (hm : request.Method = ascii "GET")
    (hp : HasPrefix request.Path (ascii "/echo") = true) :
    handleRequest.case request = .echo := by
  unfold handleRequest.case
  rw [if_pos ⟨hm, hp⟩]

theorem case_userAgent (request : Request) (hm : request.Method = ascii "GET")
    (hp : HasPrefix request.Path (ascii "/user-agent") = true) :
    handleRequest.case request = .userAgent := by
  have h1 := HasPrefix_exclusive request.Path (ascii "/user-agent") (ascii "/echo")
    (by decide) (by decide) hp
  unfold handleRequest.case
  rw [if_neg (by simp [h1]), if_pos ⟨hm, hp⟩]

theorem case_getFiles (request : Request) (hm : request.Method = ascii "GET")
    (hp : HasPrefix request.Path (ascii "/files") = true) :
    handleRequest.case request = .getFiles := by
  have h1 := HasPrefix_exclusive request.Path (ascii "/files") (ascii "/echo")
    (by decide) (by decide) hp
  have h2 := HasPrefix_exclusive request.Path (ascii "/files") (ascii "/user-agent")
    (by decide) (by decide) hp
  unfold handleRequest.case
  rw [if_neg (by simp [h1]), if_neg (by simp [h2]), if_pos ⟨hm, hp⟩]

theorem case_postFiles (request : Request) (hm : request.Method = ascii "POST")
    (hp : HasPrefix request.Path (ascii "/files") = true) :
    handleRequest.case request = .postFiles := by
  have hg : request.Method ≠ ascii "GET" := by
    rw [hm]; exact fun h => get_ne_post h.symm
  unfold handleRequest.case
  rw [if_neg (by simp [hg]), if_neg (by simp [hg]), if_neg (by simp [hg]), if_pos ⟨hm, hp⟩]

theorem case_root (request : Request) (hp : request.Path = ascii "/") :
    handleRequest.case request = .root := by
  have h1 : HasPrefix request.Path (ascii "/echo") = false := by rw [hp]; decide
  have h2 : HasPrefix request.Path (ascii "/user-agent") = false := by rw [hp]; decide
  have h3 : HasPrefix request.Path (ascii "/files") = false := by rw [hp]; decide
  unfold handleRequest.case
  rw [if_neg (by simp [h1]), if_neg (by simp [h2]), if_neg (by simp [h3]),
    if_neg (by simp [h3]), if_pos hp]

/-! ## Lemmas: parsing the encoding of a response without headers of its own -/

theorem ParseResponse_of_nil (status body first second : GoString)
    (hst : (13 : UInt8) ∉ status)
    (h1 : index (SplitN (ascii "HTTP/1.1 " ++ status) (ascii " ") 3) 1 = .ok first)
    (h2 : index (SplitN (ascii "HTTP/1.1 " ++ status) (ascii " ") 3) 2 = .ok second)
    (order : List Entry)
    (hord : RangeOrder (writeResponse.headers { StatusCode := status, Body := body }) order) :
    ParseResponse (writeResponse { StatusCode := status, Body := body } order) =
      .ok { StatusCode := TrimSpace (first ++ ascii " " ++ second),
            Headers := some ((Finmap.singleton (ascii "Content-Type") (ascii "text/plain")).insert
              (ascii "Content-Length") (formatInt body.length)),
            Body := body } := by
  have key := ParseResponse_writeResponse { StatusCode := status, Body := body } order
    first second hst h1 h2 (by
      intro e he
      have hl := (mem_of_rangeOrder hord e).mp he
      by_cases hcl : e.1 = ascii "Content-Length"
      · rw [hcl, lookup_contentLength_headers] at hl
        have hv : e.2 = formatInt body.length := (Option.some.inj hl).symm
        refine ⟨by rw [hcl]; decide, ?_, indexOf_headerLine e (by rw [hcl]; decide)⟩
        rw [hv]
        exact not_mem_formatInt 13 _ (by decide)
      · rw [lookup_headers_of_ne _ _ hcl] at hl
        by_cases hct : e.1 = ascii "Content-Type"
        · rw [if_pos hct] at hl
          have hv : e.2 = ascii "text/plain" := (Option.some.inj hl).symm
          refine ⟨by rw [hct]; decide, by rw [hv]; decide,
            indexOf_headerLine e (by rw [hct]; decide)⟩
        · rw [if_neg hct] at hl
          simp at hl)
  rw [key, storeAll_of_rangeOrder hord, headers_of_nil]

theorem statusOK_first :
    index (SplitN (ascii "HTTP/1.1 " ++ StatusOK) (ascii " ") 3) 1 = .ok (ascii "200") := by
  decide

theorem statusOK_second :
    index (SplitN (ascii "HTTP/1.1 " ++ StatusOK) (ascii " ") 3) 2 = .ok (ascii "OK") := by
  decide

theorem statusOK_trim : TrimSpace (ascii "200" ++ ascii " " ++ ascii "OK") = ascii "200 OK" := by
  decide

/-! ## The claims -/

/-- C1: for every response, the header map that writeResponse serialises holds the key
Content-Type exactly once and the key Content-Length exactly once, and so does every order
in which its entries are written; Content-Length is the decimal byte length of the body
whatever the caller stored there, Content-Type is the response's own value when it has one
and text/plain otherwise, and every other key has the value it has in the response's own
map (nothing when that map is nil). -/
theorem writeResponse_headers_spec (r : Response) :
    (writeResponse.headers r).entries.keys.count (ascii "Content-Type") = 1 ∧
    (writeResponse.headers r).entries.keys.count (ascii "Content-Length") = 1 ∧
    (∀ order, RangeOrder (writeResponse.headers r) order →
      (order.filter (fun e => e.1 = ascii "Content-Type")).length = 1 ∧
      (order.filter (fun e => e.1 = ascii "Content-Length")).length = 1) ∧
    ∀ k : GoString,
      (writeResponse.headers r).lookup k =
        if k = ascii "Content-Length" then some (formatInt r.Body.length)
        else if k = ascii "Content-Type" then
          some (((r.Headers.getD ∅).lookup (ascii "Content-Type")).getD (ascii "text/plain"))
        else (r.Headers.getD ∅).lookup k := by
  have hct := count_keys_eq_one (contentType_mem_headers r)
  have hcl := count_keys_eq_one (contentLength_mem_headers r)
  refine ⟨hct, hcl, ?_, ?_⟩
  · intro order hord
    rw [← hord] at hct hcl
    exact ⟨(length_filter_key order _).trans (by simpa [Multiset.keys, List.keys] using hct),
      (length_filter_key order _).trans (by simpa [Multiset.keys, List.keys] using hcl)⟩
  · intro k
    by_cases hk : k = ascii "Content-Length"
    · rw [if_pos hk, hk, lookup_contentLength_headers]
    · rw [if_neg hk, lookup_headers_of_ne r k hk]

theorem writeResponse_headers_spec_witness :
    RangeOrder
      (writeResponse.headers
        { StatusCode := StatusOK,
          Headers := some ((Finmap.singleton (ascii "Content-Length") (ascii "99")).insert
            (ascii "X-Test") (ascii "1")),
          Body := ascii "abc" })
      [⟨ascii "X-Test", ascii "1"⟩, ⟨ascii "Content-Length", ascii "3"⟩,
        ⟨ascii "Content-Type", ascii "text/plain"⟩] ∧
    (([⟨ascii "X-Test", ascii "1"⟩, ⟨ascii "Content-Length", ascii "3"⟩,
        ⟨ascii "Content-Type", ascii "text/plain"⟩] : List Entry).filter
      (fun e => e.1 = ascii "Content-Length")).length = 1 :=
  ⟨by decide,
    ((writeResponse_headers_spec
      { StatusCode := StatusOK,
        Headers := some ((Finmap.singleton (ascii "Content-Length") (ascii "99")).insert
          (ascii "X-Test") (ascii "1")),
        Body := ascii "abc" }).2.2.1 _ (by decide)).2⟩

/-- C2: for every response there is an order in which the decorated headers are visited,
and for every such order the bytes written are exactly the status line "HTTP/1.1 " ++
StatusCode ++ CRLF, then one line name ++ ": " ++ value ++ CRLF for each visited entry, each
entry of the decorated map being visited exactly once, then a single CRLF, then the body;
so the output starts with the status line and ends with CRLF ++ body. -/
theorem writeResponse_bytes (r : Response) :
    (∃ order, RangeOrder (writeResponse.headers r) order) ∧
    ∀ order, RangeOrder (writeResponse.headers r) order →
      writeResponse r order =
        ascii "HTTP/1.1 " ++ r.StatusCode ++ ascii "\r\n" ++
          (order.map (fun e => e.1 ++ ascii ": " ++ e.2 ++ ascii "\r\n")).flatten ++
          ascii "\r\n" ++ r.Body ∧
      (∀ e : Entry,
        order.count e = if (writeResponse.headers r).lookup e.1 = some e.2 then 1 else 0) ∧
      (ascii "HTTP/1.1 " ++ r.StatusCode ++ ascii "\r\n") <+: writeResponse r order ∧
      (ascii "\r\n" ++ r.Body) <:+ writeResponse r order := by
  refine ⟨rangeOrder_exists _, ?_⟩
  intro order hord
  have heq := writeResponse_eq r order
  refine ⟨heq, ?_, ?_, ?_⟩
  · intro e
    have hnd : order.Nodup := (rangeOrder_nodupKeys hord).nodup
    rw [List.count_eq_of_nodup hnd]
    by_cases he : e ∈ order
    · rw [if_pos he, if_pos ((mem_of_rangeOrder hord e).mp he)]
    · rw [if_neg he, if_neg (fun h => he ((mem_of_rangeOrder hord e).mpr h))]
  · rw [heq]
    exact ⟨(order.map (fun e => headerLine e ++ CRLF)).flatten ++ CRLF ++ r.Body,
      by simp only [CRLF, List.append_assoc]⟩
  · rw [heq]
    exact ⟨ascii "HTTP/1.1 " ++ r.StatusCode ++ CRLF ++
      (order.map (fun e => headerLine e ++ CRLF)).flatten,
      by simp only [CRLF, List.append_assoc]⟩

theorem writeResponse_bytes_witness :
    RangeOrder (writeResponse.headers { StatusCode := StatusOK, Body := ascii "abc" })
      [⟨ascii "Content-Length", ascii "3"⟩, ⟨ascii "Content-Type", ascii "text/plain"⟩] ∧
    writeResponse { StatusCode := StatusOK, Body := ascii "abc" }
        [⟨ascii "Content-Length", ascii "3"⟩, ⟨ascii "Content-Type", ascii "text/plain"⟩] =
      ascii "HTTP/1.1 " ++ StatusOK ++ ascii "\r\n" ++
        ([⟨ascii "Content-Length", ascii "3"⟩, ⟨ascii "Content-Type", ascii "text/plain"⟩].map
          (fun e : Entry => e.1 ++ ascii ": " ++ e.2 ++ ascii "\r\n")).flatten ++
        ascii "\r\n" ++ ascii "abc" :=
  ⟨by decide,
    ((writeResponse_bytes { StatusCode := StatusOK, Body := ascii "abc" }).2 _ (by decide)).1⟩

/-- C3: for every string s holding no space, CR or LF, the request "GET /echo/" ++ s ++
" HTTP/1.1" followed by a blank line is decoded by createRequest; handleRequest answers it
with a response that writeResponse can serialise, and whatever the order in which the
headers are written, ParseResponse reads the bytes back as status "200 OK", headers
Content-Type: text/plain and Content-Length: the decimal byte length of s, and body s. -/
theorem echo_round_trip (fs : FileStore) (directory s : GoString)
    (h32 : (32 : UInt8) ∉ s) (h13 : (13 : UInt8) ∉ s) (_h10 : (10 : UInt8) ∉ s) :
    ∃ request,
      createRequest (ascii "GET /echo/" ++ s ++ ascii " HTTP/1.1\r\n\r\n") = .ok request ∧
      (∃ order, RangeOrder (writeResponse.headers (handleRequest fs request directory).1)
        order) ∧
      ∀ order, RangeOrder (writeResponse.headers (handleRequest fs request directory).1)
          order →
        ParseResponse (writeResponse (handleRequest fs request directory).1 order) =
          .ok { StatusCode := ascii "200 OK",
                Headers := some ((Finmap.singleton (ascii "Content-Type")
                  (ascii "text/plain")).insert (ascii "Content-Length")
                  (formatInt s.length)),
                Body := s } := by
  have hdec := createRequest_of_parts (ascii "GET") (ascii "/echo/" ++ s) (ascii "HTTP/1.1")
    [] [] (by decide) (by simp [h32]; decide) (by decide) (by simp [h13]; decide)
    (by decide) (by simp)
  have hin : ascii "GET" ++ ascii " " ++ (ascii "/echo/" ++ s) ++ ascii " " ++
      ascii "HTTP/1.1" ++ CRLF ++
      (([] : List Entry).map (fun e => headerLine e ++ CRLF)).flatten ++ CRLF ++ [] =
      ascii "GET /echo/" ++ s ++ ascii " HTTP/1.1\r\n\r\n" := by
    have e1 : ascii "GET /echo/" = ascii "GET" ++ ascii " " ++ ascii "/echo/" := by decide
    have e2 : ascii " HTTP/1.1\r\n\r\n" = ascii " " ++ ascii "HTTP/1.1" ++ CRLF ++ CRLF := by
      decide
    rw [e1, e2]
    simp only [List.map_nil, List.flatten_nil, List.append_nil, List.append_assoc]
  rw [hin] at hdec
  refine ⟨_, hdec, ?_⟩
  have hresp : (handleRequest fs
      { Method := ascii "GET", Path := ascii "/echo/" ++ s, Body := [],
        Headers := some (storeAll ∅ []) } directory).1 =
      { StatusCode := StatusOK, Body := s } := by
    unfold handleRequest
    rw [case_echo _ rfl (HasPrefix_append _ _ _ (by decide))]
    simp only [handleEcho, TrimPrefix_append]
  rw [hresp]
  refine ⟨rangeOrder_exists _, ?_⟩
  intro order hord
  rw [ParseResponse_of_nil StatusOK s (ascii "200") (ascii "OK") (by decide) statusOK_first
    statusOK_second order hord, statusOK_trim]

theorem echo_round_trip_witness :
    ∃ request,
      createRequest (ascii "GET /echo/" ++ ascii "abc" ++ ascii " HTTP/1.1\r\n\r\n") =
        .ok request ∧
      (∃ order, RangeOrder
        (writeResponse.headers (handleRequest FileStore.empty request (ascii "/tmp")).1)
        order) ∧
      ∀ order, RangeOrder
          (writeResponse.headers (handleRequest FileStore.empty request (ascii "/tmp")).1)
          order →
        ParseResponse
            (writeResponse (handleRequest FileStore.empty request (ascii "/tmp")).1 order) =
          .ok { StatusCode := ascii "200 OK",
                Headers := some ((Finmap.singleton (ascii "Content-Type")
                  (ascii "text/plain")).insert (ascii "Content-Length") (ascii "3")),
                Body := ascii "abc" } :=
  echo_round_trip FileStore.empty (ascii "/tmp") (ascii "abc") (by decide) (by decide)
    (by decide)

/-- C4: for every request with method GET whose path has the prefix "/echo", whatever its
headers, its body, the directory and the store, handleRequest takes the Echo case, leaves
the store as it is and returns status "200 OK", no headers, and as body the path with the
literal prefix "/echo/" stripped: the rest of the path, verbatim, when the path starts with
"/echo/", and the whole path when it does not (a loose match such as "/echo-anything"). -/
theorem handleRequest_echo (fs : FileStore) (request : Request) (directory : GoString)
    (hm : request.Method = ascii "GET")
    (hp : HasPrefix request.Path (ascii "/echo") = true) :
    handleRequest.case request = .echo ∧
    handleRequest fs request directory =
      ({ StatusCode := ascii "200 OK", Headers := none,
         Body := TrimPrefix request.Path (ascii "/echo/") }, fs) ∧
    (∀ rest, request.Path = ascii "/echo/" ++ rest →
      TrimPrefix request.Path (ascii "/echo/") = rest) ∧
    (HasPrefix request.Path (ascii "/echo/") = false →
      TrimPrefix request.Path (ascii "/echo/") = request.Path) := by
  have hc := case_echo request hm hp
  refine ⟨hc, ?_, ?_, ?_⟩
  · unfold handleRequest
    rw [hc]
    rfl
  · intro rest hrest
    rw [hrest, TrimPrefix_append]
  · exact TrimPrefix_of_not _ _

theorem handleRequest_echo_witness :
    handleRequest FileStore.empty
        { Method := ascii "GET", Path := ascii "/echo-anything", Body := ascii "x" }
        (ascii "/tmp") =
      ({ StatusCode := ascii "200 OK", Headers := none,
         Body := TrimPrefix (ascii "/echo-anything") (ascii "/echo/") }, FileStore.empty) ∧
    TrimPrefix (ascii "/echo-anything") (ascii "/echo/") = ascii "/echo-anything" :=
  ⟨(handleRequest_echo FileStore.empty
      { Method := ascii "GET", Path := ascii "/echo-anything", Body := ascii "x" }
      (ascii "/tmp") (by decide) (by decide)).2.1,
    (handleRequest_echo FileStore.empty
      { Method := ascii "GET", Path := ascii "/echo-anything", Body := ascii "x" }
      (ascii "/tmp") (by decide) (by decide)).2.2.2 (by decide)⟩

/-- C5: for every request with method GET whose path has the prefix "/user-agent",
handleRequest takes the UserAgent case and returns status "200 OK", no headers, and as body
the value stored under the exact key "User-Agent" in the request headers, the empty string
when that key is absent or the map is nil; a header stored under "user-agent" is not used.
Decoding "GET /user-agent HTTP/1.1", CRLF, "User-Agent: " ++ v and a blank line and
dispatching it gives body v, for every v without CR or LF. -/
theorem handleRequest_userAgent :
    (∀ (fs : FileStore) (request : Request) (directory : GoString),
      request.Method = ascii "GET" →
      HasPrefix request.Path (ascii "/user-agent") = true →
      handleRequest.case request = .userAgent ∧
      handleRequest fs request directory =
        ({ StatusCode := ascii "200 OK", Headers := none,
           Body := request.Headers.get (ascii "User-Agent") }, fs) ∧
      (∀ (h : HeaderMap) (v : GoString), request.Headers = some h →
        h.lookup (ascii "User-Agent") = some v →
        request.Headers.get (ascii "User-Agent") = v) ∧
      (∀ h : HeaderMap, request.Headers = some h → ascii "User-Agent" ∉ h →
        request.Headers.get (ascii "User-Agent") = []) ∧
      (request.Headers = none → request.Headers.get (ascii "User-Agent") = [])) ∧
    (∀ v : GoString,
      StringMap.get (some (Finmap.singleton (ascii "user-agent") v)) (ascii "User-Agent") =
        []) ∧
    (∀ (fs : FileStore) (directory v : GoString),
      (13 : UInt8) ∉ v → (10 : UInt8) ∉ v →
      ∃ request,
        createRequest (ascii "GET /user-agent HTTP/1.1\r\nUser-Agent: " ++ v ++
          ascii "\r\n\r\n") = .ok request ∧
        handleRequest fs request directory =
          ({ StatusCode := ascii "200 OK", Headers := none, Body := v }, fs)) := by
  have hdispatch : ∀ (fs : FileStore) (request : Request) (directory : GoString),
      request.Method = ascii "GET" →
      HasPrefix request.Path (ascii "/user-agent") = true →
      handleRequest fs request directory =
        ({ StatusCode := ascii "200 OK", Headers := none,
           Body := request.Headers.get (ascii "User-Agent") }, fs) := by
    intro fs request directory hm hp
    unfold handleRequest
    rw [case_userAgent request hm hp]
    rfl
  refine ⟨?_, ?_, ?_⟩
  · intro fs request directory hm hp
    refine ⟨case_userAgent request hm hp, hdispatch fs request directory hm hp, ?_, ?_, ?_⟩
    · intro h v hh hv
      rw [hh]
      simp [StringMap.get, hv]
    · intro h hh hv
      rw [hh]
      simp [StringMap.get, Finmap.lookup_eq_none.mpr hv]
    · intro hh
      rw [hh]
      rfl
  · intro v
    have hne : ascii "User-Agent" ∉ (Finmap.singleton (ascii "user-agent") v : HeaderMap) := by
      rw [Finmap.mem_singleton]
      decide
    simp [StringMap.get, Finmap.lookup_eq_none.mpr hne]
  · intro fs directory v h13 _h10
    have hdec := createRequest_of_parts (ascii "GET") (ascii "/user-agent") (ascii "HTTP/1.1")
      [⟨ascii "User-Agent", v⟩] [] (by decide) (by decide) (by decide) (by decide)
      (by decide) (by
        intro e he
        rw [List.mem_singleton] at he
        subst he
        have hname13 : (13 : UInt8) ∉ ascii "User-Agent" := by decide
        have hname58 : (58 : UInt8) ∉ ascii "User-Agent" := by decide
        exact ⟨hname13, h13, indexOf_headerLine _ hname58⟩)
    have hin : ascii "GET" ++ ascii " " ++ ascii "/user-agent" ++ ascii " " ++
        ascii "HTTP/1.1" ++ CRLF ++
        (([⟨ascii "User-Agent", v⟩] : List Entry).map
          (fun e => headerLine e ++ CRLF)).flatten ++ CRLF ++ [] =
        ascii "GET /user-agent HTTP/1.1\r\nUser-Agent: " ++ v ++ ascii "\r\n\r\n" := by
      have e1 : ascii "GET /user-agent HTTP/1.1\r\nUser-Agent: " =
          ascii "GET" ++ ascii " " ++ ascii "/user-agent" ++ ascii " " ++ ascii "HTTP/1.1" ++
            CRLF ++ ascii "User-Agent" ++ ascii ": " := by decide
      have e2 : ascii "\r\n\r\n" = CRLF ++ CRLF := by decide
      rw [e1, e2]
      simp only [List.map_cons, List.map_nil, List.flatten_cons, List.flatten_nil,
        List.append_nil, List.append_assoc, headerLine]
    rw [hin] at hdec
    refine ⟨_, hdec, ?_⟩
    have hpre : HasPrefix (ascii "/user-agent") (ascii "/user-agent") = true := by decide
    rw [hdispatch fs _ directory rfl hpre]
    simp [StringMap.get, storeAll, Finmap.lookup_insert]

theorem handleRequest_userAgent_witness :
    (∃ request,
      createRequest (ascii "GET /user-agent HTTP/1.1\r\nUser-Agent: " ++ ascii "curl/7.6" ++
        ascii "\r\n\r\n") = .ok request ∧
      handleRequest FileStore.empty request (ascii "/tmp") =
        ({ StatusCode := ascii "200 OK", Headers := none, Body := ascii "curl/7.6" },
          FileStore.empty)) ∧
    handleRequest FileStore.empty
        { Method := ascii "GET", Path := ascii "/user-agent",
          Headers := some (Finmap.singleton (ascii "user-agent") (ascii "curl/7.6")) }
        (ascii "/tmp") =
      ({ StatusCode := ascii "200 OK", Headers := none, Body := [] }, FileStore.empty) :=
  ⟨handleRequest_userAgent.2.2 FileStore.empty (ascii "/tmp") (ascii "curl/7.6")
      (by decide) (by decide),
    (handleRequest_userAgent.1 FileStore.empty
      { Method := ascii "GET", Path := ascii "/user-agent",
        Headers := some (Finmap.singleton (ascii "user-agent") (ascii "curl/7.6")) }
      (ascii "/tmp") (by decide) (by decide)).2.1⟩

/-- C6: over the file store, for every directory, every path p with prefix "/files" and
every body b: if the write of b at directory ++ "/" ++ TrimPrefix(p, "/files/") succeeds,
then handleRequest on a POST request with path p and body b returns "201 Created" with no
headers and empty body and leaves the written store, and handleRequest on a GET request
with the same path on that store returns "200 OK", body exactly b, and headers exactly
Content-Type: application/octet-stream. -/
theorem files_write_then_read (fs fs' : FileStore) (directory p b : GoString)
    (postHeaders getHeaders : StringMap) (getBody : GoString)
    (hp : HasPrefix p (ascii "/files") = true)
    (hw : fs.WriteFile (directory ++ ascii "/" ++ TrimPrefix p (ascii "/files/")) b = .ok fs') :
    handleRequest fs
        { Method := ascii "POST", Path := p, Body := b, Headers := postHeaders } directory =
      ({ StatusCode := ascii "201 Created", Headers := none, Body := [] }, fs') ∧
    handleRequest fs'
        { Method := ascii "GET", Path := p, Body := getBody, Headers := getHeaders } directory =
      ({ StatusCode := ascii "200 OK",
         Headers := some (Finmap.singleton (ascii "Content-Type")
           (ascii "application/octet-stream")),
         Body := b }, fs') := by
  constructor
  · unfold handleRequest
    rw [case_postFiles _ rfl hp]
    simp only [handlePostFiles, hw]
    rfl
  · have hread : fs'.ReadFile (directory ++ ascii "/" ++ TrimPrefix p (ascii "/files/")) =
        .ok b := by
      unfold FileStore.WriteFile at hw
      split at hw
      · cases hw
      · cases hw
        unfold FileStore.ReadFile
        simp only [Finmap.lookup_insert]
    unfold handleRequest
    rw [case_getFiles _ rfl hp]
    simp only [handleGetFiles, hread]
    rfl

theorem files_write_then_read_witness :
    handleRequest (FileStore.empty)
        { Method := ascii "POST", Path := ascii "/files/test.txt", Body := ascii "Hello",
          Headers := some (Finmap.singleton (ascii "User-Agent") (ascii "curl/7.6")) }
        (ascii "/tmp") =
      ({ StatusCode := ascii "201 Created", Headers := none, Body := [] },
        ⟨Finmap.singleton (ascii "/tmp/test.txt") (ascii "Hello"),
            fun _ => none, fun _ => .notExist⟩) ∧
    handleRequest ⟨Finmap.singleton (ascii "/tmp/test.txt") (ascii "Hello"),
        fun _ => none, fun _ => .notExist⟩
        { Method := ascii "GET", Path := ascii "/files/test.txt", Body := [],
          Headers := some ∅ } (ascii "/tmp") =
      ({ StatusCode := ascii "200 OK",
         Headers := some (Finmap.singleton (ascii "Content-Type")
           (ascii "application/octet-stream")),
         Body := ascii "Hello" },
        ⟨Finmap.singleton (ascii "/tmp/test.txt") (ascii "Hello"),
            fun _ => none, fun _ => .notExist⟩) :=
  files_write_then_read FileStore.empty _ (ascii "/tmp") (ascii "/files/test.txt")
    (ascii "Hello") _ _ [] (by decide) rfl

/-- C7: over the file store, for every directory, path p with prefix "/files" and body b:
if the write of b succeeds, handling the same POST request a second time leaves the store
equal to the store after the first time, each of the two POSTs returns "201 Created", and
the response to GET p is the same after one write as after two (status "200 OK", body b). -/
theorem files_write_twice (fs fs' : FileStore) (directory p b : GoString)
    (postHeaders getHeaders : StringMap) (getBody : GoString)
    (hp : HasPrefix p (ascii "/files") = true)
    (hw : fs.WriteFile (directory ++ ascii "/" ++ TrimPrefix p (ascii "/files/")) b = .ok fs') :
    handleRequest fs
        { Method := ascii "POST", Path := p, Body := b, Headers := postHeaders } directory =
      ({ StatusCode := ascii "201 Created", Headers := none, Body := [] }, fs') ∧
    handleRequest fs'
        { Method := ascii "POST", Path := p, Body := b, Headers := postHeaders } directory =
      ({ StatusCode := ascii "201 Created", Headers := none, Body := [] }, fs') ∧
    (handleRequest (handleRequest fs'
        { Method := ascii "POST", Path := p, Body := b, Headers := postHeaders } directory).2
        { Method := ascii "GET", Path := p, Body := getBody, Headers := getHeaders }
        directory).1 =
      (handleRequest fs'
        { Method := ascii "GET", Path := p, Body := getBody, Headers := getHeaders }
        directory).1 ∧
    ((handleRequest fs'
        { Method := ascii "GET", Path := p, Body := getBody, Headers := getHeaders }
        directory).1.StatusCode = ascii "200 OK" ∧
      (handleRequest fs'
        { Method := ascii "GET", Path := p, Body := getBody, Headers := getHeaders }
        directory).1.Body = b) := by
  have hw' : fs'.WriteFile (directory ++ ascii "/" ++ TrimPrefix p (ascii "/files/")) b =
      .ok fs' := by
    unfold FileStore.WriteFile at hw ⊢
    split at hw
    · cases hw
    · next hnone =>
      cases hw
      simp only [hnone, Finmap.insert_insert]
  have hpost : ∀ s s' : FileStore,
      s.WriteFile (directory ++ ascii "/" ++ TrimPrefix p (ascii "/files/")) b = .ok s' →
      handleRequest s
          { Method := ascii "POST", Path := p, Body := b, Headers := postHeaders } directory =
        ({ StatusCode := ascii "201 Created", Headers := none, Body := [] }, s') := by
    intro s s' h
    unfold handleRequest
    rw [case_postFiles _ rfl hp]
    simp only [handlePostFiles, h]
    rfl
  have hread : fs'.ReadFile (directory ++ ascii "/" ++ TrimPrefix p (ascii "/files/")) =
      .ok b := by
    unfold FileStore.WriteFile at hw
    split at hw
    · cases hw
    · cases hw
      unfold FileStore.ReadFile
      simp only [Finmap.lookup_insert]
  have hget : handleRequest fs'
      { Method := ascii "GET", Path := p, Body := getBody, Headers := getHeaders } directory =
      ({ StatusCode := ascii "200 OK",
         Headers := some (Finmap.singleton (ascii "Content-Type")
           (ascii "application/octet-stream")),
         Body := b }, fs') := by
    unfold handleRequest
    rw [case_getFiles _ rfl hp]
    simp only [handleGetFiles, hread]
    rfl
  refine ⟨hpost fs fs' hw, hpost fs' fs' hw', ?_, ?_⟩
  · rw [hpost fs' fs' hw']
  · rw [hget]
    exact ⟨rfl, rfl⟩

theorem files_write_twice_witness :
    handleRequest ⟨Finmap.singleton (ascii "/tmp/test.txt") (ascii "Hello"),
        fun _ => none, fun _ => .notExist⟩
        { Method := ascii "POST", Path := ascii "/files/test.txt", Body := ascii "Hello",
          Headers := none } (ascii "/tmp") =
      ({ StatusCode := ascii "201 Created", Headers := none, Body := [] },
        ⟨Finmap.singleton (ascii "/tmp/test.txt") (ascii "Hello"),
            fun _ => none, fun _ => .notExist⟩) :=
  (files_write_twice FileStore.empty _ (ascii "/tmp") (ascii "/files/test.txt")
    (ascii "Hello") none none [] (by decide) rfl).2.1

/-- C8: file-store failures are recovered into a response, whatever the error: a GET
request with path prefix "/files" whose read fails gets status "404 Not Found", empty body
and no headers, and the store is left as it is; a POST request with path prefix "/files"
whose write fails gets status "500 Internal Server Error", empty body and no headers, and
the store is left as it is. A response with no headers and empty body is encoded with
Content-Type text/plain and Content-Length 0. Every cause of failure can occur, for a read
and for a write. -/
theorem files_failures (fs : FileStore) (request : Request) (directory : GoString)
    (hp : HasPrefix request.Path (ascii "/files") = true) :
    (∀ e : FsError, request.Method = ascii "GET" →
      fs.ReadFile (directory ++ ascii "/" ++ TrimPrefix request.Path (ascii "/files/")) =
        .error e →
      handleRequest fs request directory =
        ({ StatusCode := ascii "404 Not Found", Headers := none, Body := [] }, fs)) ∧
    (∀ e : FsError, request.Method = ascii "POST" →
      fs.WriteFile (directory ++ ascii "/" ++ TrimPrefix request.Path (ascii "/files/"))
        request.Body = .error e →
      handleRequest fs request directory =
        ({ StatusCode := ascii "500 Internal Server Error", Headers := none, Body := [] },
          fs)) ∧
    (∀ status : GoString,
      writeResponse.headers { StatusCode := status, Headers := none, Body := [] } =
        (Finmap.singleton (ascii "Content-Type") (ascii "text/plain")).insert
          (ascii "Content-Length") (ascii "0")) ∧
    (∀ (e : FsError) (name data : GoString),
      FileStore.ReadFile ⟨∅, fun _ => none, fun _ => e⟩ name = .error e ∧
      FileStore.WriteFile ⟨∅, fun _ => some e, fun _ => e⟩ name data = .error e) := by
  refine ⟨?_, ?_, ?_, fun e name data => ⟨rfl, rfl⟩⟩
  · intro e hm hr
    unfold handleRequest
    rw [case_getFiles request hm hp]
    simp only [handleGetFiles, hr]
    rfl
  · intro e hm hw
    unfold handleRequest
    rw [case_postFiles request hm hp]
    simp only [handlePostFiles, hw]
    rfl
  · intro status
    rw [headers_of_nil]
    rfl

theorem files_failures_witness :
    handleRequest FileStore.empty
        { Method := ascii "GET", Path := ascii "/files/missing.txt" } (ascii "/tmp") =
      ({ StatusCode := ascii "404 Not Found", Headers := none, Body := [] }, FileStore.empty) ∧
    handleRequest ⟨∅, fun _ => none, fun _ => FsError.permission⟩
        { Method := ascii "GET", Path := ascii "/files/secret" } (ascii "/tmp") =
      ({ StatusCode := ascii "404 Not Found", Headers := none, Body := [] },
        ⟨∅, fun _ => none, fun _ => FsError.permission⟩) ∧
    handleRequest ⟨∅, fun _ => none, fun _ => FsError.isDirectory⟩
        { Method := ascii "GET", Path := ascii "/files/" } (ascii "/tmp") =
      ({ StatusCode := ascii "404 Not Found", Headers := none, Body := [] },
        ⟨∅, fun _ => none, fun _ => FsError.isDirectory⟩) ∧
    handleRequest ⟨∅, fun _ => some FsError.permission, fun _ => FsError.notExist⟩
        { Method := ascii "POST", Path := ascii "/files/a", Body := ascii "x" } (ascii "/ro") =
      ({ StatusCode := ascii "500 Internal Server Error", Headers := none, Body := [] },
        ⟨∅, fun _ => some FsError.permission, fun _ => FsError.notExist⟩) :=
  ⟨(files_failures FileStore.empty
      { Method := ascii "GET", Path := ascii "/files/missing.txt" } (ascii "/tmp")
      (by decide)).1 FsError.notExist (by decide) rfl,
    (files_failures ⟨∅, fun _ => none, fun _ => FsError.permission⟩
      { Method := ascii "GET", Path := ascii "/files/secret" } (ascii "/tmp")
      (by decide)).1 FsError.permission (by decide) rfl,
    (files_failures ⟨∅, fun _ => none, fun _ => FsError.isDirectory⟩
      { Method := ascii "GET", Path := ascii "/files/" } (ascii "/tmp")
      (by decide)).1 FsError.isDirectory (by decide) rfl,
    (files_failures ⟨∅, fun _ => some FsError.permission, fun _ => FsError.notExist⟩
      { Method := ascii "POST", Path := ascii "/files/a", Body := ascii "x" } (ascii "/ro")
      (by decide)).2.1 FsError.permission (by decide) rfl⟩

/-- C9: for every request whose path is exactly "/", whatever its method, headers and body,
handleRequest takes the root case (no handler is called), leaves the store as it is and
returns status "200 OK" with empty body and no headers; written in any order of the headers
and parsed back, this response is status "200 OK", headers Content-Type: text/plain and
Content-Length: 0, and an empty body. The request "GET / HTTP/1.1" followed by a blank line
decodes to a request with path "/". -/
theorem handleRequest_root :
    (∀ (fs : FileStore) (request : Request) (directory : GoString),
      request.Path = ascii "/" →
      handleRequest.case request = .root ∧
      handleRequest fs request directory =
        ({ StatusCode := ascii "200 OK", Headers := none, Body := [] }, fs) ∧
      (∃ order, RangeOrder (writeResponse.headers (handleRequest fs request directory).1)
        order) ∧
      ∀ order, RangeOrder (writeResponse.headers (handleRequest fs request directory).1)
          order →
        ParseResponse (writeResponse (handleRequest fs request directory).1 order) =
          .ok { StatusCode := ascii "200 OK",
                Headers := some ((Finmap.singleton (ascii "Content-Type")
                  (ascii "text/plain")).insert (ascii "Content-Length") (ascii "0")),
                Body := [] }) ∧
    createRequest (ascii "GET / HTTP/1.1\r\n\r\n") =
      .ok { Method := ascii "GET", Path := ascii "/", Body := [], Headers := some ∅ } := by
  refine ⟨?_, by decide⟩
  intro fs request directory hp
  have hc := case_root request hp
  have hresp : handleRequest fs request directory =
      ({ StatusCode := StatusOK, Body := [] }, fs) := by
    unfold handleRequest
    rw [hc]
  refine ⟨hc, hresp, ?_⟩
  rw [hresp]
  refine ⟨rangeOrder_exists _, ?_⟩
  intro order hord
  rw [ParseResponse_of_nil StatusOK [] (ascii "200") (ascii "OK") (by decide) statusOK_first
    statusOK_second order hord, statusOK_trim]
  rfl

theorem handleRequest_root_witness :
    handleRequest FileStore.empty
        { Method := ascii "GET", Path := ascii "/", Body := [], Headers := some ∅ }
        (ascii "/tmp") =
      ({ StatusCode := ascii "200 OK", Headers := none, Body := [] }, FileStore.empty) :=
  (handleRequest_root.1 FileStore.empty
    { Method := ascii "GET", Path := ascii "/", Body := [], Headers := some ∅ }
    (ascii "/tmp") (by decide)).2.1

/-- C10: for every request that matches none of the routing rules 1 to 5 (its path is not
"/", it is not a GET with path prefix "/echo", "/user-agent" or "/files", and it is not a
POST with path prefix "/files"), handleRequest takes the default case, returns exactly
status "404 Not Found" with empty body and no headers, and leaves the store unchanged. The
request "GET /not-found HTTP/1.1" followed by a blank line decodes to such a request. -/
theorem handleRequest_unmatched :
    (∀ (fs : FileStore) (request : Request) (directory : GoString),
      request.Path ≠ ascii "/" →
      ¬ (request.Method = ascii "GET" ∧ HasPrefix request.Path (ascii "/echo") = true) →
      ¬ (request.Method = ascii "GET" ∧ HasPrefix request.Path (ascii "/user-agent") = true) →
      ¬ (request.Method = ascii "GET" ∧ HasPrefix request.Path (ascii "/files") = true) →
      ¬ (request.Method = ascii "POST" ∧ HasPrefix request.Path (ascii "/files") = true) →
      handleRequest.case request = .default ∧
      handleRequest fs request directory =
        ({ StatusCode := ascii "404 Not Found", Headers := none, Body := [] }, fs)) ∧
    createRequest (ascii "GET /not-found HTTP/1.1\r\n\r\n") =
      .ok { Method := ascii "GET", Path := ascii "/not-found", Body := [],
            Headers := some ∅ } := by
  refine ⟨?_, by decide⟩
  intro fs request directory h5 h1 h2 h3 h4
  have hc : handleRequest.case request = .default := by
    unfold handleRequest.case
    rw [if_neg h1, if_neg h2, if_neg h3, if_neg h4, if_neg h5]
  refine ⟨hc, ?_⟩
  unfold handleRequest
  rw [hc]
  rfl

theorem handleRequest_unmatched_witness :
    handleRequest FileStore.empty
        { Method := ascii "GET", Path := ascii "/not-found", Body := [], Headers := some ∅ }
        (ascii "/tmp") =
      ({ StatusCode := ascii "404 Not Found", Headers := none, Body := [] }, FileStore.empty) :=
  (handleRequest_unmatched.1 FileStore.empty
    { Method := ascii "GET", Path := ascii "/not-found", Body := [], Headers := some ∅ }
    (ascii "/tmp") (by decide) (by decide) (by decide) (by decide) (by decide)).2

/-! ## Lemmas: instances of a separator -/

theorem indexOf_eq_none_iff (sep : GoString) :
    ∀ s : GoString, indexOf sep s = none ↔ ¬ sep <:+: s
  | [] => by
    by_cases h : sep = []
    · simp [indexOf, h]
    · simp [indexOf, h]
  | c :: rest => by
    have ih := indexOf_eq_none_iff sep rest
    by_cases hp : sep.isPrefixOf (c :: rest) = true
    · have hpre : sep <+: c :: rest := List.isPrefixOf_iff_prefix.mp hp
      rw [indexOf, if_pos hp]
      simp [hpre.isInfix]
    · have hpre : ¬ sep <+: c :: rest := fun h => hp (List.isPrefixOf_iff_prefix.mpr h)
      rw [indexOf, if_neg hp, Option.map_eq_none', ih, List.infix_cons_iff]
      simp [hpre]

theorem indexOf_some_bound (sep : GoString) :
    ∀ (s : GoString) (m : Nat), indexOf sep s = some m → m + sep.length ≤ s.length
  | [], m, h => by
    by_cases hs : sep = []
    · simp [indexOf, hs] at h
      simp [hs, ← h]
    · simp [indexOf, hs] at h
  | c :: rest, m, h => by
    by_cases hp : sep.isPrefixOf (c :: rest) = true
    · rw [indexOf, if_pos hp] at h
      have hpre : sep <+: c :: rest := List.isPrefixOf_iff_prefix.mp hp
      have := hpre.length_le
      cases h
      omega
    · rw [indexOf, if_neg hp] at h
      cases hr : indexOf sep rest with
      | none => rw [hr] at h; cases h
      | some m' =>
        rw [hr] at h
        have := indexOf_some_bound sep rest m' hr
        cases h
        simp only [List.length_cons]
        omega

/-- A name that holds no instance of the separator, followed by the separator: the
first instance starts right after the name. -/
theorem indexOf_after_name (c d : UInt8) (hcd : c ≠ d) (name value : GoString)
    (h : ¬ [c, d] <:+: name) :
    indexOf [c, d] (name ++ [c, d] ++ value) = some name.length := by
  have hskip := indexOf_append_of_noMatch [c, d] name ([c, d] ++ value) (by
    intro i hi
    by_contra hc
    have hpre : [c, d] <+: (name ++ ([c, d] ++ value)).drop i :=
      List.isPrefixOf_iff_prefix.mp (by simpa using hc)
    rw [List.drop_append_of_le_length (Nat.le_of_lt hi)] at hpre
    -- the part of the name from i on is not empty
    rcases hdrop : name.drop i with _ | ⟨x, _ | ⟨y, rest⟩⟩
    · have := congrArg List.length hdrop
      simp at this
      omega
    · -- one byte of the name is left: the next byte is c, not d
      rw [hdrop] at hpre
      obtain ⟨t, ht⟩ := hpre
      simp at ht
      exact hcd ht.2.1.symm
    · -- two bytes of the name are left: the name holds the separator
      rw [hdrop] at hpre
      obtain ⟨t, ht⟩ := hpre
      simp at ht
      apply h
      refine ⟨name.take i, rest, ?_⟩
      have : name = name.take i ++ name.drop i := (List.take_append_drop i name).symm
      rw [hdrop, ← ht.1, ← ht.2.1] at this
      simpa using this.symm)
  rw [List.append_assoc, hskip, indexOf_sep_append]
  simp

theorem indexOf_headerLine_of_no_infix (e : Entry) (h : ¬ ascii ": " <:+: e.1) :
    indexOf (ascii ": ") (headerLine e) = some e.1.length := by
  rw [colonSpace_eq] at h ⊢
  rw [headerLine, colonSpace_eq]
  exact indexOf_after_name 58 32 (by decide) e.1 e.2 h

/-- The value found in the map left by storing a list of entries: the last one listed
under the name, and otherwise the one the map held. -/
theorem lookup_storeAll_last :
    ∀ (es : List Entry) (h0 : HeaderMap) (k : GoString),
      (storeAll h0 es).lookup k = (es.reverse.dlookup k).or (h0.lookup k)
  | [], h0, k => by simp [storeAll]
  | e :: es, h0, k => by
    have ih := lookup_storeAll_last es (h0.insert e.1 e.2) k
    have hunfold : storeAll h0 (e :: es) = storeAll (h0.insert e.1 e.2) es := rfl
    rw [hunfold, ih, List.reverse_cons, List.dlookup_append]
    obtain ⟨a, b⟩ := e
    by_cases hk : k = a
    · subst hk
      rw [Finmap.lookup_insert]
      cases List.dlookup k es.reverse <;> simp
    · rw [Finmap.lookup_insert_of_ne _ hk, List.dlookup_cons_ne _ _ hk]
      cases List.dlookup k es.reverse <;> simp

/-- C11, as stated, fails: the request "PUT / HTTP/1.1" followed by a blank line has a
method that is neither GET nor POST, is decoded by createRequest, and handleRequest answers
it with "200 OK" (the case for the path "/" does not look at the method), not with
"404 Not Found". -/
theorem unknown_method_root_counterexample :
    ascii "PUT" ≠ ascii "GET" ∧ ascii "PUT" ≠ ascii "POST" ∧
    createRequest (ascii "PUT / HTTP/1.1\r\n\r\n") =
      .ok { Method := ascii "PUT", Path := ascii "/", Body := [], Headers := some ∅ } ∧
    (handleRequest FileStore.empty
      { Method := ascii "PUT", Path := ascii "/", Body := [], Headers := some ∅ }
      (ascii "/tmp")).1 = { StatusCode := ascii "200 OK", Headers := none, Body := [] } ∧
    (handleRequest FileStore.empty
      { Method := ascii "PUT", Path := ascii "/", Body := [], Headers := some ∅ }
      (ascii "/tmp")).1.StatusCode ≠ ascii "404 Not Found" := by
  decide

/-- C11, amended: a request whose method is neither GET nor POST matches none of the rules
1 to 4: whatever its path, headers and body, handleRequest takes the root case or the
default case, so none of the Echo, UserAgent, FileRead and FileWrite handlers is called and
the store is left unchanged; it returns "404 Not Found" with empty body and no headers when
the path is not "/", and "200 OK" with empty body and no headers when the path is exactly
"/". Such a request is accepted by createRequest: for every method m and path p without
space or CR, the line m ++ " " ++ p ++ " HTTP/1.1" followed by a blank line decodes to the
request with method m and path p. -/
theorem handleRequest_unknown_method :
    (∀ (fs : FileStore) (request : Request) (directory : GoString),
      request.Method ≠ ascii "GET" → request.Method ≠ ascii "POST" →
      (handleRequest.case request = .root ∨ handleRequest.case request = .default) ∧
      (handleRequest fs request directory).2 = fs ∧
      (request.Path ≠ ascii "/" →
        handleRequest fs request directory =
          ({ StatusCode := ascii "404 Not Found", Headers := none, Body := [] }, fs)) ∧
      (request.Path = ascii "/" →
        handleRequest fs request directory =
          ({ StatusCode := ascii "200 OK", Headers := none, Body := [] }, fs))) ∧
    (∀ m p : GoString, (32 : UInt8) ∉ m → (13 : UInt8) ∉ m → (32 : UInt8) ∉ p →
      (13 : UInt8) ∉ p →
      createRequest (m ++ ascii " " ++ p ++ ascii " HTTP/1.1\r\n\r\n") =
        .ok { Method := m, Path := p, Body := [], Headers := some ∅ }) := by
  constructor
  · intro fs request directory hg hpost
    have hcase : handleRequest.case request =
        if request.Path = ascii "/" then .root else .default := by
      unfold handleRequest.case
      rw [if_neg (by simp [hg]), if_neg (by simp [hg]), if_neg (by simp [hg]),
        if_neg (by simp [hpost])]
    by_cases hp : request.Path = ascii "/"
    · rw [if_pos hp] at hcase
      have hres : handleRequest fs request directory =
          ({ StatusCode := ascii "200 OK", Headers := none, Body := [] }, fs) := by
        unfold handleRequest
        rw [hcase]
        rfl
      exact ⟨Or.inl hcase, by rw [hres], fun h => absurd hp h, fun _ => hres⟩
    · rw [if_neg hp] at hcase
      have hres : handleRequest fs request directory =
          ({ StatusCode := ascii "404 Not Found", Headers := none, Body := [] }, fs) := by
        unfold handleRequest
        rw [hcase]
        rfl
      exact ⟨Or.inr hcase, by rw [hres], fun _ => hres, fun h => absurd h hp⟩
  · intro m p hm hm13 hp hp13
    have hdec := createRequest_of_parts m p (ascii "HTTP/1.1") [] [] hm hp hm13 hp13
      (by decide) (by simp)
    have hin : m ++ ascii " " ++ p ++ ascii " " ++ ascii "HTTP/1.1" ++ CRLF ++
        (([] : List Entry).map (fun e => headerLine e ++ CRLF)).flatten ++ CRLF ++ [] =
        m ++ ascii " " ++ p ++ ascii " HTTP/1.1\r\n\r\n" := by
      have e2 : ascii " HTTP/1.1\r\n\r\n" = ascii " " ++ ascii "HTTP/1.1" ++ CRLF ++ CRLF := by
        decide
      rw [e2]
      simp only [List.map_nil, List.flatten_nil, List.append_nil, List.append_assoc]
    rw [hin] at hdec
    exact hdec

theorem handleRequest_unknown_method_witness :
    handleRequest FileStore.empty
        { Method := ascii "PUT", Path := ascii "/files/a", Body := ascii "x" } (ascii "/tmp") =
      ({ StatusCode := ascii "404 Not Found", Headers := none, Body := [] },
        FileStore.empty) ∧
    createRequest (ascii "PUT" ++ ascii " " ++ ascii "/files/a" ++ ascii " HTTP/1.1\r\n\r\n") =
      .ok { Method := ascii "PUT", Path := ascii "/files/a", Body := [], Headers := some ∅ } :=
  ⟨(handleRequest_unknown_method.1 FileStore.empty
      { Method := ascii "PUT", Path := ascii "/files/a", Body := ascii "x" } (ascii "/tmp")
      (by decide) (by decide)).2.2.1 (by decide),
    handleRequest_unknown_method.2 (ascii "PUT") (ascii "/files/a") (by decide) (by decide)
      (by decide) (by decide)⟩

/-- C12: for every method m and path p holding no space, CR or LF, every version text v
holding no CR or LF, every list of headers whose names hold no ": " and whose names and
values hold no CR or LF, and every body b, createRequest applied to m ++ " " ++ p ++ " " ++
v ++ CRLF ++ the header lines name ++ ": " ++ value ++ CRLF ++ CRLF ++ b succeeds and
returns the request with method m, path p (unchanged), body b and as headers the map of
the listed headers, names as received, in which a name has the value listed last for it;
the version v does not appear in the result. -/
theorem createRequest_wellformed (m p v : GoString) (es : List Entry) (body : GoString)
    (hm : (32 : UInt8) ∉ m ∧ (13 : UInt8) ∉ m ∧ (10 : UInt8) ∉ m)
    (hp : (32 : UInt8) ∉ p ∧ (13 : UInt8) ∉ p ∧ (10 : UInt8) ∉ p)
    (hv : (13 : UInt8) ∉ v ∧ (10 : UInt8) ∉ v)
    (hes : ∀ e ∈ es, ¬ ascii ": " <:+: e.1 ∧ (13 : UInt8) ∉ e.1 ∧ (10 : UInt8) ∉ e.1 ∧
      (13 : UInt8) ∉ e.2 ∧ (10 : UInt8) ∉ e.2) :
    createRequest (m ++ ascii " " ++ p ++ ascii " " ++ v ++ ascii "\r\n" ++
        (es.map (fun e => e.1 ++ ascii ": " ++ e.2 ++ ascii "\r\n")).flatten ++
        ascii "\r\n" ++ body) =
      .ok { Method := m, Path := p, Body := body, Headers := some (storeAll ∅ es) } ∧
    ∀ k : GoString, (storeAll ∅ es).lookup k = es.reverse.dlookup k := by
  constructor
  · exact createRequest_of_parts m p v es body hm.1 hp.1 hm.2.1 hp.2.1 hv.1
      (fun e he => ⟨(hes e he).2.1, (hes e he).2.2.2.1,
        indexOf_headerLine_of_no_infix e (hes e he).1⟩)
  · intro k
    rw [lookup_storeAll_last, Finmap.lookup_empty]
    cases List.dlookup k es.reverse <;> rfl

theorem createRequest_wellformed_witness :
    createRequest (ascii "POST" ++ ascii " " ++ ascii "/files/test.txt" ++ ascii " " ++
        ascii "HTTP/1.1" ++ ascii "\r\n" ++
        (([⟨ascii "User-Agent", ascii "curl/7.6"⟩, ⟨ascii "X:y", ascii "a: b"⟩,
            ⟨ascii "User-Agent", ascii "wget"⟩] : List Entry).map
          (fun e => e.1 ++ ascii ": " ++ e.2 ++ ascii "\r\n")).flatten ++
        ascii "\r\n" ++ ascii "Hello\r\n\r\nworld: ") =
      .ok { Method := ascii "POST", Path := ascii "/files/test.txt",
            Body := ascii "Hello\r\n\r\nworld: ",
            Headers := some (storeAll ∅
              [⟨ascii "User-Agent", ascii "curl/7.6"⟩, ⟨ascii "X:y", ascii "a: b"⟩,
                ⟨ascii "User-Agent", ascii "wget"⟩]) } ∧
    (storeAll ∅ ([⟨ascii "User-Agent", ascii "curl/7.6"⟩, ⟨ascii "X:y", ascii "a: b"⟩,
        ⟨ascii "User-Agent", ascii "wget"⟩] : List Entry)).lookup (ascii "User-Agent") =
      some (ascii "wget") :=
  ⟨(createRequest_wellformed (ascii "POST") (ascii "/files/test.txt") (ascii "HTTP/1.1")
      [⟨ascii "User-Agent", ascii "curl/7.6"⟩, ⟨ascii "X:y", ascii "a: b"⟩,
        ⟨ascii "User-Agent", ascii "wget"⟩]
      (ascii "Hello\r\n\r\nworld: ") (by decide) (by decide) (by decide) (by decide)).1,
    (createRequest_wellformed (ascii "POST") (ascii "/files/test.txt") (ascii "HTTP/1.1")
      [⟨ascii "User-Agent", ascii "curl/7.6"⟩, ⟨ascii "X:y", ascii "a: b"⟩,
        ⟨ascii "User-Agent", ascii "wget"⟩]
      (ascii "Hello\r\n\r\nworld: ") (by decide) (by decide) (by decide) (by decide)).2
      (ascii "User-Agent")⟩

/-! ## Lemmas: the decoder on an arbitrary input -/

theorem genSplitLoop_ne_nil (sep : GoString) (n : Nat) (s : GoString) :
    ∃ l ls, genSplitLoop sep n s = l :: ls := by
  cases n with
  | zero => exact ⟨s, [], rfl⟩
  | succ n =>
    rw [genSplitLoop]
    cases indexOf sep s with
    | none => exact ⟨s, [], rfl⟩
    | some m => exact ⟨_, _, rfl⟩

theorem not_mem_takeWhile_ne (c : UInt8) :
    ∀ s : GoString, c ∉ s.takeWhile (· ≠ c)
  | [] => by simp
  | x :: s => by
    by_cases h : x = c
    · simp [List.takeWhile_cons, h]
    · have ih := not_mem_takeWhile_ne c s
      simp only [List.takeWhile_cons, ne_eq, h, not_false_eq_true, decide_True, if_true,
        List.mem_cons, not_or]
      exact ⟨fun hc => h hc.symm, ih⟩

/-- A string that holds a byte is cut at the first place where it stands. -/
theorem split_at_first (c : UInt8) :
    ∀ s : GoString, c ∈ s → ∃ b, s = s.takeWhile (· ≠ c) ++ c :: b
  | [], h => by simp at h
  | x :: s, h => by
    by_cases hx : x = c
    · exact ⟨s, by simp [List.takeWhile_cons, hx]⟩
    · have hs : c ∈ s := by
        rcases List.mem_cons.mp h with h | h
        · exact absurd h.symm hx
        · exact h
      obtain ⟨b, hb⟩ := split_at_first c s hs
      refine ⟨b, ?_⟩
      simp only [List.takeWhile_cons, ne_eq, hx, not_false_eq_true, decide_True, if_true,
        List.cons_append]
      rw [← hb]

theorem takeWhile_ne_of_not_mem (c : UInt8) (s : GoString) (h : c ∉ s) :
    s.takeWhile (· ≠ c) = s := by
  rw [List.takeWhile_eq_self_iff]
  intro x hx
  simpa using fun hxc : x = c => h (hxc ▸ hx)

/-- The first piece of a split at a one-byte separator: the text up to that byte. -/
theorem genSplitLoop_head (c : UInt8) (n : Nat) (s : GoString) (hn : c ∈ s → 1 ≤ n) :
    ∃ more, genSplitLoop [c] n s = s.takeWhile (· ≠ c) :: more := by
  by_cases hc : c ∈ s
  · obtain ⟨b, hb⟩ := split_at_first c s hc
    obtain ⟨n', rfl⟩ : ∃ n', n = n' + 1 := ⟨n - 1, by have := hn hc; omega⟩
    have := genSplitLoop_first c [] (s.takeWhile (· ≠ c)) b n' (not_mem_takeWhile_ne c s)
    rw [List.append_assoc, List.singleton_append, ← hb] at this
    exact ⟨_, this⟩
  · exact ⟨[], by rw [genSplitLoop_of_not_mem c [] s n hc, takeWhile_ne_of_not_mem c s hc]⟩

/-- The request line split at its spaces: the text before the first space, then the text
between the first space and the next one. -/
theorem Split_requestLine (a rest : GoString) (ha : (32 : UInt8) ∉ a) :
    ∃ more, Split (a ++ ascii " " ++ rest) (ascii " ") =
      a :: rest.takeWhile (· ≠ 32) :: more := by
  rw [space_eq]
  unfold Split
  have hlen : (a ++ [32] ++ rest).length = (a.length + rest.length) + 1 := by
    simp only [List.length_append, List.length_singleton]; omega
  rw [hlen, genSplitLoop_first 32 [] a rest _ ha]
  obtain ⟨more, hmore⟩ := genSplitLoop_head 32 (a.length + rest.length) rest (by
    intro h
    have := List.length_pos_of_mem h
    omega)
  exact ⟨more, by rw [hmore]⟩

theorem SplitN_two_none (s sep : GoString) (h : indexOf sep s = none) :
    SplitN s sep 2 = [s] := by
  unfold SplitN
  rw [if_neg (by decide)]
  cases min 2 (s.length + 1) - 1 with
  | zero => rfl
  | succ n => rw [genSplitLoop, h]

theorem SplitN_two_some (s sep : GoString) (m : Nat) (hsep : sep ≠ [])
    (h : indexOf sep s = some m) :
    SplitN s sep 2 = [s.take m, s.drop (m + sep.length)] := by
  have hb := indexOf_some_bound sep s m h
  have hpos : 0 < sep.length := List.length_pos.mpr hsep
  have hfuel : min 2 (s.length + 1) - 1 = 0 + 1 := by omega
  unfold SplitN
  rw [if_neg (by decide), hfuel, genSplitLoop, h]
  rfl

theorem headerLoop_ok_iff :
    ∀ (ls : List GoString) (h0 : HeaderMap),
      (∃ h, createRequest.headerLoop ls h0 = .ok h) ↔
        ∀ l ∈ ls.takeWhile (· ≠ []), ascii ": " <:+: l
  | [], h0 => by simp [createRequest.headerLoop]
  | line :: rest, h0 => by
    by_cases hl : line = []
    · simp [createRequest.headerLoop, hl]
    · rw [createRequest.headerLoop, if_neg hl]
      have htw : (line :: rest).takeWhile (· ≠ []) = line :: rest.takeWhile (· ≠ []) := by
        simp [List.takeWhile_cons, hl]
      rw [htw]
      cases hi : indexOf (ascii ": ") line with
      | none =>
        have hno := (indexOf_eq_none_iff (ascii ": ") line).mp hi
        rw [SplitN_two_none _ _ hi]
        simp [index, bind, Except.bind, hno]
      | some m =>
        have hyes : ascii ": " <:+: line := by
          by_contra hc
          rw [(indexOf_eq_none_iff (ascii ": ") line).mpr hc] at hi
          cases hi
        rw [SplitN_two_some _ _ m (by decide) hi]
        have ih := headerLoop_ok_iff rest
          (h0.insert (line.take m) (line.drop (m + (ascii ": ").length)))
        simp only [index, List.getElem?_cons_zero, List.getElem?_cons_succ, bind, Except.bind,
          List.mem_cons, forall_eq_or_imp, hyes, true_and]
        exact ih

theorem bodySlice_ok_iff (s : GoString) :
    (∃ b, sliceFrom s (Index s CRLF2 + (CRLF2.length : Int)) = .ok b) ↔
      ¬ (¬ CRLF2 <:+: s ∧ s.length < 3) := by
  have hlen : (CRLF2.length : Int) = 4 := by decide
  unfold Index sliceFrom
  rw [hlen]
  cases hi : indexOf CRLF2 s with
  | none =>
    have hno := (indexOf_eq_none_iff CRLF2 s).mp hi
    simp only [hno, not_false_eq_true, true_and, not_lt]
    constructor
    · rintro ⟨b, hb⟩
      split at hb
      · omega
      · cases hb
    · intro h3
      exact ⟨_, if_pos (by omega)⟩
  | some m =>
    have hyes : CRLF2 <:+: s := by
      by_contra hc
      rw [(indexOf_eq_none_iff CRLF2 s).mpr hc] at hi
      cases hi
    have hb := indexOf_some_bound CRLF2 s m hi
    have h4 : CRLF2.length = 4 := by decide
    simp only [hyes, not_true_eq_false, false_and, not_false_eq_true, iff_true]
    exact ⟨_, if_pos (by omega)⟩

theorem except_ok_or_error {ε α : Type} (x : Except ε α) :
    (∃ a, x = .ok a) ∨ (∃ e, x = .error e) := by
  cases x with
  | ok a => exact Or.inl ⟨a, rfl⟩
  | error e => exact Or.inr ⟨e, rfl⟩

theorem firstLine_of_lines (s l : GoString) (ls : List GoString)
    (hs : Split s CRLF = l :: ls) : firstLine s = l := by
  unfold firstLine
  rw [hs]
  rfl

theorem headerLines_of_lines (s l : GoString) (ls : List GoString)
    (hs : Split s CRLF = l :: ls) : headerLines s = ls.takeWhile (· ≠ []) := by
  unfold headerLines
  rw [hs]
  rfl

theorem createRequest_no_space (s l : GoString) (ls : List GoString)
    (hs : Split s CRLF = l :: ls) (hl : (32 : UInt8) ∉ l) :
    createRequest s = .error (.indexOutOfRange 1 1) := by
  have hsp : Split l (ascii " ") = [l] := by
    rw [space_eq]
    exact genSplitLoop_of_not_mem 32 [] l _ hl
  unfold createRequest
  rw [hs]
  simp only [index, List.getElem?_cons_zero, bind, Except.bind, hsp]
  rfl

/-- The decoder after its request line: what is left to do is the header loop and the
slice of the body. -/
theorem createRequest_after_requestLine (s a rest : GoString) (ls : List GoString)
    (hs : Split s CRLF = (a ++ ascii " " ++ rest) :: ls) (ha : (32 : UInt8) ∉ a) :
    createRequest s =
      (createRequest.headerLoop ls ∅).bind (fun headers =>
        (sliceFrom s (Index s CRLF2 + (CRLF2.length : Int))).bind (fun body =>
          .ok { Method := a, Path := rest.takeWhile (· ≠ 32), Body := body,
                Headers := some headers })) := by
  obtain ⟨more, hsp⟩ := Split_requestLine a rest ha
  have hslice : sliceFrom ((a ++ ascii " " ++ rest) :: ls) 1 = .ok ls := by
    simp [sliceFrom]
  unfold createRequest
  rw [hs]
  simp only [index, List.getElem?_cons_zero, List.getElem?_cons_succ, bind, Except.bind, hsp,
    hslice]
  rfl

/-- C13: createRequest fails with an index-out-of-range panic when the first CRLF-delimited
line holds no space (fewer than two tokens); and for every input string it fails if and
only if (a) the first CRLF-delimited line holds no space, or (b) some line after the first
and before the first empty line does not hold ": ", or (c) the input holds no blank-line
separator and is shorter than 3 bytes; on every other input it returns a request. -/
theorem createRequest_fails_iff (s : GoString) :
    ((32 : UInt8) ∉ firstLine s → createRequest s = .error (.indexOutOfRange 1 1)) ∧
    ((∃ e, createRequest s = .error e) ↔
      ((32 : UInt8) ∉ firstLine s ∨ (∃ l ∈ headerLines s, ¬ ascii ": " <:+: l) ∨
        (¬ ascii "\r\n\r\n" <:+: s ∧ s.length < 3))) ∧
    ((¬ ∃ e, createRequest s = .error e) → ∃ r, createRequest s = .ok r) := by
  obtain ⟨l, ls, hs⟩ := genSplitLoop_ne_nil CRLF s.length s
  have hs' : Split s CRLF = l :: ls := hs
  rw [firstLine_of_lines s l ls hs', headerLines_of_lines s l ls hs']
  refine ⟨createRequest_no_space s l ls hs', ?_, ?_⟩
  · by_cases hl : (32 : UInt8) ∈ l
    · obtain ⟨b, hb⟩ := split_at_first 32 l hl
      have hform : l = l.takeWhile (· ≠ 32) ++ ascii " " ++ b := by
        rw [space_eq, List.append_assoc, List.singleton_append]
        exact hb
      rw [hform] at hs'
      have hcr := createRequest_after_requestLine s _ b ls hs' (not_mem_takeWhile_ne 32 l)
      have hloop := headerLoop_ok_iff ls ∅
      have hbody := bodySlice_ok_iff s
      rw [hcr]
      simp only [hl, not_true_eq_false, false_or]
      rcases except_ok_or_error (createRequest.headerLoop ls ∅) with ⟨h, hh⟩ | ⟨e, he⟩
      · have hall := hloop.mp ⟨h, hh⟩
        rw [hh]
        rcases except_ok_or_error (sliceFrom s (Index s CRLF2 + (CRLF2.length : Int))) with
          ⟨body, hbd⟩ | ⟨e, he⟩
        · have hnc := hbody.mp ⟨body, hbd⟩
          rw [hbd]
          constructor
          · rintro ⟨e, he⟩
            cases he
          · rintro (⟨x, hx, hno⟩ | hc)
            · exact absurd (hall x hx) hno
            · exact absurd hc hnc
        · rw [he]
          constructor
          · intro _
            right
            by_contra hc
            obtain ⟨body, hbd⟩ := hbody.mpr hc
            rw [hbd] at he
            cases he
          · intro _
            exact ⟨e, rfl⟩
      · rw [he]
        constructor
        · intro _
          left
          by_contra hc
          have hall : ∀ x ∈ ls.takeWhile (· ≠ []), ascii ": " <:+: x := by
            intro x hx
            by_contra hno
            exact hc ⟨x, hx, hno⟩
          obtain ⟨h, hh⟩ := hloop.mpr hall
          rw [hh] at he
          cases he
        · intro _
          exact ⟨e, rfl⟩
    · rw [createRequest_no_space s l ls hs' hl]
      simp [hl]
  · intro hne
    rcases except_ok_or_error (createRequest s) with h | h
    · exact h
    · exact absurd h hne

theorem createRequest_fails_iff_witness :
    createRequest (ascii "GET") = .error (.indexOutOfRange 1 1) ∧
    ((∃ e, createRequest (ascii "G ") = .error e) ↔
      ((32 : UInt8) ∉ firstLine (ascii "G ") ∨
        (∃ l ∈ headerLines (ascii "G "), ¬ ascii ": " <:+: l) ∨
        (¬ ascii "\r\n\r\n" <:+: ascii "G " ∧ (ascii "G ").length < 3))) ∧
    ∃ r, createRequest (ascii "GET / HTTP/1.1\r\nHost: a\r\n\r\n") = .ok r :=
  ⟨(createRequest_fails_iff (ascii "GET")).1 (by decide),
    (createRequest_fails_iff (ascii "G ")).2.1,
    (createRequest_fails_iff (ascii "GET / HTTP/1.1\r\nHost: a\r\n\r\n")).2.2 (by
      rintro ⟨e, he⟩
      have hok : createRequest (ascii "GET / HTTP/1.1\r\nHost: a\r\n\r\n") =
          .ok { Method := ascii "GET", Path := ascii "/", Body := [],
                Headers := some (Finmap.singleton (ascii "Host") (ascii "a")) } := by
        decide
      rw [hok] at he
      cases he)⟩

/-- A request that createRequest returns, field by field: the method is the text before the
first space of the first line, the path the text between that space and the next one, the
headers are what the header loop leaves and the body is the slice from bodyStart on. -/
theorem createRequest_ok_fields (s : GoString) (r : Request) (h : createRequest s = .ok r) :
    ∃ a rest ls headers,
      Split s CRLF = (a ++ ascii " " ++ rest) :: ls ∧ (32 : UInt8) ∉ a ∧
      createRequest.headerLoop ls ∅ = .ok headers ∧
      sliceFrom s (Index s CRLF2 + (CRLF2.length : Int)) = .ok r.Body ∧
      r.Method = a ∧ r.Path = rest.takeWhile (· ≠ 32) ∧ r.Headers = some headers := by
  obtain ⟨l, ls, hs⟩ := genSplitLoop_ne_nil CRLF s.length s
  have hs' : Split s CRLF = l :: ls := hs
  by_cases hl : (32 : UInt8) ∈ l
  · obtain ⟨b, hb⟩ := split_at_first 32 l hl
    have hform : l = l.takeWhile (· ≠ 32) ++ ascii " " ++ b := by
      rw [space_eq, List.append_assoc, List.singleton_append]
      exact hb
    rw [hform] at hs'
    have hcr := createRequest_after_requestLine s _ b ls hs' (not_mem_takeWhile_ne 32 l)
    rw [hcr] at h
    rcases except_ok_or_error (createRequest.headerLoop ls ∅) with ⟨hd, hh⟩ | ⟨e, he⟩
    · rw [hh] at h
      rcases except_ok_or_error (sliceFrom s (Index s CRLF2 + (CRLF2.length : Int))) with
        ⟨body, hbd⟩ | ⟨e, he⟩
      · rw [hbd] at h
        cases h
        exact ⟨_, b, ls, hd, hs', not_mem_takeWhile_ne 32 l, hh, hbd, rfl, rfl, rfl⟩
      · rw [he] at h
        cases h
    · rw [he] at h
      cases h
  · rw [createRequest_no_space s l ls hs' hl] at h
    cases h

theorem HasPrefix_takeWhile_slash (rest : GoString) :
    HasPrefix (rest.takeWhile (· ≠ 32)) (ascii "/") = HasPrefix rest (ascii "/") := by
  have hs : ascii "/" = [47] := by decide
  rw [hs]
  unfold HasPrefix
  cases rest with
  | nil => rfl
  | cons x t =>
    by_cases hx : x = 32
    · subst hx
      simp [List.takeWhile_cons, List.isPrefixOf]
    · simp [List.takeWhile_cons, hx, List.isPrefixOf]

/-- C14 (what the code does): the input "GET / HTTP/1.1" ++ CRLF holds no blank-line
separator, and createRequest neither fails on it nor returns an empty body: strings.Index
returns -1, bodyStart is 3, and the body is the input from its fourth byte on. -/
theorem createRequest_without_separator :
    ¬ ascii "\r\n\r\n" <:+: ascii "GET / HTTP/1.1\r\n" ∧
    createRequest (ascii "GET / HTTP/1.1\r\n") =
      .ok { Method := ascii "GET", Path := ascii "/", Body := ascii " / HTTP/1.1\r\n",
            Headers := some ∅ } ∧
    ascii " / HTTP/1.1\r\n" ≠ [] := by
  decide

/-- C15, as stated, fails: createRequest succeeds on "GET foo HTTP/1.1" followed by a blank
line and returns the path "foo", which does not start with "/". -/
theorem path_without_slash_counterexample :
    createRequest (ascii "GET foo HTTP/1.1\r\n\r\n") =
      .ok { Method := ascii "GET", Path := ascii "foo", Body := [], Headers := some ∅ } ∧
    HasPrefix (ascii "foo") (ascii "/") = false := by
  decide

/-- C15, amended: for every input string on which createRequest succeeds, the first line
holds a space and the path of the returned request is the text between the first space of
the first line and the next space (or the end of the line), unchanged; so the path starts
with "/" exactly when the text after the first space of the first line does. -/
theorem createRequest_path (s : GoString) (r : Request) (h : createRequest s = .ok r) :
    ∃ a rest,
      firstLine s = a ++ ascii " " ++ rest ∧ (32 : UInt8) ∉ a ∧
      r.Path = rest.takeWhile (· ≠ 32) ∧
      HasPrefix r.Path (ascii "/") = HasPrefix rest (ascii "/") := by
  obtain ⟨a, rest, ls, headers, hs, ha, _, _, _, hpath, _⟩ := createRequest_ok_fields s r h
  refine ⟨a, rest, firstLine_of_lines s _ ls hs, ha, hpath, ?_⟩
  rw [hpath, HasPrefix_takeWhile_slash]

theorem createRequest_path_witness :
    ∃ a rest,
      firstLine (ascii "GET /echo/abc HTTP/1.1\r\n\r\n") = a ++ ascii " " ++ rest ∧
      (32 : UInt8) ∉ a ∧
      ascii "/echo/abc" = rest.takeWhile (· ≠ 32) ∧
      HasPrefix (ascii "/echo/abc") (ascii "/") = HasPrefix rest (ascii "/") :=
  createRequest_path (ascii "GET /echo/abc HTTP/1.1\r\n\r\n")
    { Method := ascii "GET", Path := ascii "/echo/abc", Body := [], Headers := some ∅ }
    (by decide)

/-- C16 (what the code does): whatever the store, the directory and the range order, when
the connection delivers "GET" (a request line without a space), or a request whose header
line holds no ": ", the index-out-of-range panic of createRequest leaves handleConnection:
nothing is written and the panic is not recovered. A failed read, by contrast, is handled
inside handleConnection, which returns without writing. -/
theorem handleConnection_panic_escapes (fs : FileStore) (directory : GoString)
    (range : HeaderMap → List Entry) :
    handleConnection fs (.ok (ascii "GET")) directory range =
      .error (.indexOutOfRange 1 1) ∧
    handleConnection fs (.ok (ascii "GET / HTTP/1.1\r\nHost\r\n\r\n")) directory range =
      .error (.indexOutOfRange 1 1) ∧
    handleConnection fs (.ok (ascii "G ")) directory range =
      .error (.sliceOutOfRange 3 2) ∧
    ∀ e : ConnError, handleConnection fs (.error e) directory range = .ok (none, fs) := by
  have h1 : createRequest ((ascii "GET").take 1024) = .error (.indexOutOfRange 1 1) := by
    decide
  have h2 : createRequest ((ascii "GET / HTTP/1.1\r\nHost\r\n\r\n").take 1024) =
      .error (.indexOutOfRange 1 1) := by
    decide
  have h3 : createRequest ((ascii "G ").take 1024) = .error (.sliceOutOfRange 3 2) := by
    decide
  refine ⟨?_, ?_, ?_, fun e => rfl⟩
  · simp only [handleConnection, h1]
    rfl
  · simp only [handleConnection, h2]
    rfl
  · simp only [handleConnection, h3]
    rfl

/-! ## Lemmas: strings.TrimSpace on a string without white space at its ends -/

theorem DecodeRuneInString_ascii (b : UInt8) (t : GoString) (h : b.toNat < 0x80) :
    DecodeRuneInString (b :: t) = (b.toNat, 1) := by
  simp [DecodeRuneInString, h]

theorem DecodeRuneInString_single (b : UInt8) : (DecodeRuneInString [b]).2 = 1 := by
  unfold DecodeRuneInString
  simp only []
  split_ifs <;> rfl

theorem IsSpace_of_asciiSpace (c : UInt8) (h : asciiSpace c = true) :
    IsSpace c.toNat = true := by
  simp only [asciiSpace, Bool.decide_or, Bool.or_eq_true, decide_eq_true_eq] at h
  rcases h with rfl | rfl | rfl | rfl | rfl | rfl <;> decide

theorem DecodeLastRuneInString_ascii (s : GoString) (d : UInt8) (hd : s.getLast? = some d)
    (h : d.toNat < 0x80) : DecodeLastRuneInString s = (d.toNat, 1) := by
  simp [DecodeLastRuneInString, hd, h]

/-- The last rune of a string that ends in a non-ASCII byte: either RuneError of width 1,
or the rune that DecodeRuneInString finds at the place where it starts. -/
theorem DecodeLastRuneInString_cases (s : GoString) (d : UInt8) (hd : s.getLast? = some d)
    (h : ¬ d.toNat < 0x80) :
    (DecodeLastRuneInString s).2 = 1 ∨
      ∃ start : Nat, start + (DecodeLastRuneInString s).2 = s.length ∧
        (DecodeRuneInString (s.drop start)).2 = (DecodeLastRuneInString s).2 := by
  unfold DecodeLastRuneInString
  simp only [hd, h, if_false]
  generalize hst : (max ((List.find? (fun (i : Int) => decide (max ((s.length : Int) - 4) 0 ≤ i) &&
      !isContinuation (s.getD i.toNat 0))
      ([(s.length : Int) - 2, (s.length : Int) - 3, (s.length : Int) - 4] : List Int)).getD
      (max ((s.length : Int) - 4) 0 - 1)) 0) = st
  have hst0 : 0 ≤ st := by
    rw [← hst]
    exact le_max_right _ _
  by_cases hc : st + ((DecodeRuneInString (s.drop st.toNat)).2 : Int) ≠ (s.length : Int)
  · left
    rw [if_pos hc]
  · right
    rw [if_neg hc]
    refine ⟨st.toNat, ?_, rfl⟩
    simp only [ne_eq, not_not] at hc
    omega

theorem TrimLeftSpace_of_not_space (s : GoString) (hs : s ≠ [])
    (h : IsSpace (DecodeRuneInString s).1 = false) : TrimLeftSpace s = s := by
  obtain ⟨c, t, rfl⟩ := List.exists_cons_of_ne_nil hs
  unfold TrimLeftSpace
  rw [List.length_cons, trimLeftSpaceLoop]
  simp only [h]
  rfl

theorem TrimRightSpace_of_not_space (s : GoString) (hs : s ≠ [])
    (h : IsSpace (DecodeLastRuneInString s).1 = false) : TrimRightSpace s = s := by
  obtain ⟨d, hd⟩ : ∃ d, s.getLast? = some d := by
    cases hl : s.getLast? with
    | none => exact absurd (List.getLast?_eq_none_iff.mp hl) hs
    | some d => exact ⟨d, rfl⟩
  have hpos : 0 < s.length := List.length_pos.mpr hs
  obtain ⟨n, hn⟩ : ∃ n, s.length = n + 1 := ⟨s.length - 1, by omega⟩
  have hloop : lastNonSpaceLoop s s.length s.length =
      ((s.length - (DecodeLastRuneInString s).2 : Nat) : Int) := by
    conv_lhs => rw [hn]
    rw [lastNonSpaceLoop, if_neg (by omega), ← hn, List.take_length]
    simp only [h]
    rfl
  unfold TrimRightSpace
  simp only [hloop]
  apply List.take_of_length_le
  have hcases : (DecodeLastRuneInString s).2 = 1 ∨
      ∃ start : Nat, start + (DecodeLastRuneInString s).2 = s.length ∧
        (DecodeRuneInString (s.drop start)).2 = (DecodeLastRuneInString s).2 := by
    by_cases hlt : d.toNat < 0x80
    · left
      rw [DecodeLastRuneInString_ascii s d hd hlt]
    · exact DecodeLastRuneInString_cases s d hd hlt
  rcases hcases with h1 | ⟨start, hsum, hw⟩
  · rw [h1]
    obtain ⟨b, hdrop⟩ : ∃ b, s.drop (s.length - 1) = [b] := by
      apply List.length_eq_one.mp
      rw [List.length_drop]
      omega
    simp only [Int.toNat_ofNat, hdrop, DecodeRuneInString_single]
    split_ifs <;> omega
  · have hi : s.length - (DecodeLastRuneInString s).2 = start := by omega
    rw [hi]
    simp only [Int.toNat_ofNat, hw]
    split_ifs with hc
    · omega
    · by_cases hlt : start < s.length
      · have hdrop : s.drop start = s[start] :: s.drop (start + 1) :=
          List.drop_eq_getElem_cons hlt
        have hget : s.getD start 0 = s[start] := List.getD_eq_getElem s 0 hlt
        rw [hget] at hc
        have hb : s[start].toNat < 0x80 := by
          by_contra hge
          exact hc ⟨Int.ofNat_nonneg _, by omega⟩
        have hone : (DecodeRuneInString (s.drop start)).2 = 1 := by
          rw [hdrop, DecodeRuneInString_ascii _ _ hb]
        omega
      · omega

theorem trimSpaceRight_reverse (s : GoString) (hs : s ≠ [])
    (h : IsSpace (DecodeLastRuneInString s).1 = false) : trimSpaceRight s.reverse = s := by
  obtain ⟨d, u, hrev⟩ := List.exists_cons_of_ne_nil (mt List.reverse_eq_nil_iff.mp hs)
  have hback : (d :: u).reverse = s := by rw [← hrev, List.reverse_reverse]
  have hd : s.getLast? = some d := by
    rw [← hback]
    simp
  rw [hrev, trimSpaceRight]
  by_cases hc : 0x80 ≤ d.toNat
  · rw [if_pos hc, hback, TrimRightSpace_of_not_space s hs h]
  · have hlt : d.toNat < 0x80 := by omega
    have hna : ¬ asciiSpace d = true := by
      intro ha
      rw [DecodeLastRuneInString_ascii s d hd hlt] at h
      rw [IsSpace_of_asciiSpace d ha] at h
      cases h
    rw [if_neg hc, if_neg hna, hback]

/-- A string with no white space at its start and none at its end is left as it is. -/
theorem TrimSpace_of_not_space (s : GoString) (hs : s ≠ [])
    (hlead : IsSpace (DecodeRuneInString s).1 = false)
    (htrail : IsSpace (DecodeLastRuneInString s).1 = false) : TrimSpace s = s := by
  obtain ⟨c, t, rfl⟩ := List.exists_cons_of_ne_nil hs
  unfold TrimSpace
  rw [trimSpaceLeft]
  by_cases hc : 0x80 ≤ c.toNat
  · rw [if_pos hc, TrimLeftSpace_of_not_space _ hs hlead,
      TrimRightSpace_of_not_space _ hs htrail]
  · have hlt : c.toNat < 0x80 := by omega
    have hna : ¬ asciiSpace c = true := by
      intro ha
      rw [DecodeRuneInString_ascii c t hlt] at hlead
      rw [IsSpace_of_asciiSpace c ha] at hlead
      cases hlead
    rw [if_neg hc, if_neg hna, trimSpaceRight_reverse _ hs htrail]

/-- The status line "HTTP/1.1 " ++ status, split at most three times at its spaces. -/
theorem SplitN_statusLine (a b : GoString) (ha : (32 : UInt8) ∉ a) :
    SplitN (ascii "HTTP/1.1 " ++ (a ++ 32 :: b)) (ascii " ") 3 = [ascii "HTTP/1.1", a, b] := by
  have hform : ascii "HTTP/1.1 " ++ (a ++ 32 :: b) =
      (([ascii "HTTP/1.1", a] : List GoString).map (· ++ [(32 : UInt8)])).flatten ++ b := by
    have e : ascii "HTTP/1.1 " = ascii "HTTP/1.1" ++ [32] := by decide
    rw [e]
    simp
  have hlen : 9 ≤ (ascii "HTTP/1.1 " ++ (a ++ 32 :: b)).length := by
    have e : (ascii "HTTP/1.1 ").length = 9 := by decide
    rw [List.length_append, e]
    omega
  have hfuel : min 3 ((ascii "HTTP/1.1 " ++ (a ++ 32 :: b)).length + 1) - 1 = 2 := by omega
  unfold SplitN
  rw [if_neg (by decide), hfuel, space_eq, hform]
  have := genSplitLoop_pieces 32 [] [ascii "HTTP/1.1", a] b 2 (by
    intro l hl
    simp only [List.mem_cons, List.mem_singleton, List.not_mem_nil, or_false] at hl
    rcases hl with rfl | rfl
    · decide
    · exact ha) (by simp)
  rw [this]
  rfl

/-- C17: ParseResponse inverts the serialisation done by writeResponse: for every response
whose status holds a space, has no white space (in the sense of unicode.IsSpace) at its
start or at its end and holds no CR or LF, whose header names hold no ": " and whose header
names and values hold no CR or LF, for any body and for every order in which the decorated
headers are written, ParseResponse of the bytes written is the response with the same
status, the decorated headers (Content-Type defaulted to text/plain, Content-Length set to
the decimal byte length of the body) and the same body. -/
theorem ParseResponse_inverts_writeResponse (r : Response) (order : List Entry)
    (hsp : (32 : UInt8) ∈ r.StatusCode)
    (hlead : IsSpace (DecodeRuneInString r.StatusCode).1 = false)
    (htrail : IsSpace (DecodeLastRuneInString r.StatusCode).1 = false)
    (hst : (13 : UInt8) ∉ r.StatusCode ∧ (10 : UInt8) ∉ r.StatusCode)
    (hh : ∀ k v : GoString, (r.Headers.getD ∅).lookup k = some v →
      ¬ ascii ": " <:+: k ∧ (13 : UInt8) ∉ k ∧ (10 : UInt8) ∉ k ∧
        (13 : UInt8) ∉ v ∧ (10 : UInt8) ∉ v)
    (hord : RangeOrder (writeResponse.headers r) order) :
    ParseResponse (writeResponse r order) =
      .ok { StatusCode := r.StatusCode, Headers := some (writeResponse.headers r),
            Body := r.Body } := by
  obtain ⟨b, hb⟩ := split_at_first 32 r.StatusCode hsp
  have ha := not_mem_takeWhile_ne 32 r.StatusCode
  have hsplit : SplitN (ascii "HTTP/1.1 " ++ r.StatusCode) (ascii " ") 3 =
      [ascii "HTTP/1.1", r.StatusCode.takeWhile (· ≠ 32), b] := by
    conv_lhs => rw [hb]
    exact SplitN_statusLine _ b ha
  have hne : r.StatusCode ≠ [] := List.ne_nil_of_mem hsp
  have hes : ∀ e ∈ order, (13 : UInt8) ∉ e.1 ∧ (13 : UInt8) ∉ e.2 ∧
      indexOf (ascii ": ") (headerLine e) = some e.1.length := by
    intro e he
    have hl := (mem_of_rangeOrder hord e).mp he
    by_cases hcl : e.1 = ascii "Content-Length"
    · rw [hcl, lookup_contentLength_headers] at hl
      have hv : e.2 = formatInt r.Body.length := (Option.some.inj hl).symm
      refine ⟨by rw [hcl]; decide, ?_, indexOf_headerLine e (by rw [hcl]; decide)⟩
      rw [hv]
      exact not_mem_formatInt 13 _ (by decide)
    · rw [lookup_headers_of_ne _ _ hcl] at hl
      by_cases hct : e.1 = ascii "Content-Type"
      · rw [if_pos hct] at hl
        have hv : e.2 = ((r.Headers.getD ∅).lookup (ascii "Content-Type")).getD
            (ascii "text/plain") := (Option.some.inj hl).symm
        refine ⟨by rw [hct]; decide, ?_, indexOf_headerLine e (by rw [hct]; decide)⟩
        rw [hv]
        cases hown : (r.Headers.getD ∅).lookup (ascii "Content-Type") with
        | none => decide
        | some v => exact (hh _ v hown).2.2.2.1
      · rw [if_neg hct] at hl
        have := hh e.1 e.2 hl
        exact ⟨this.2.1, this.2.2.2.1, indexOf_headerLine_of_no_infix e this.1⟩
  have key := ParseResponse_writeResponse r order (r.StatusCode.takeWhile (· ≠ 32)) b hst.1
    (by rw [hsplit]; rfl) (by rw [hsplit]; rfl) hes
  have hjoin : r.StatusCode.takeWhile (· ≠ 32) ++ ascii " " ++ b = r.StatusCode := by
    rw [space_eq, List.append_assoc, List.singleton_append]
    exact hb.symm
  rw [key, hjoin, TrimSpace_of_not_space r.StatusCode hne hlead htrail,
    storeAll_of_rangeOrder hord]

theorem ParseResponse_inverts_writeResponse_witness :
    ParseResponse
      (writeResponse
        { StatusCode := ascii "201 Created",
          Headers := some ((Finmap.singleton (ascii "X-Note") (ascii "a: b")).insert
            (ascii "Content-Length") (ascii "999")),
          Body := ascii "one\r\n\r\ntwo" }
        [⟨ascii "X-Note", ascii "a: b"⟩, ⟨ascii "Content-Type", ascii "text/plain"⟩,
          ⟨ascii "Content-Length", ascii "10"⟩]) =
      .ok { StatusCode := ascii "201 Created",
            Headers := some (writeResponse.headers
              { StatusCode := ascii "201 Created",
                Headers := some ((Finmap.singleton (ascii "X-Note") (ascii "a: b")).insert
                  (ascii "Content-Length") (ascii "999")),
                Body := ascii "one\r\n\r\ntwo" }),
            Body := ascii "one\r\n\r\ntwo" } :=
  ParseResponse_inverts_writeResponse
    { StatusCode := ascii "201 Created",
      Headers := some ((Finmap.singleton (ascii "X-Note") (ascii "a: b")).insert
        (ascii "Content-Length") (ascii "999")),
      Body := ascii "one\r\n\r\ntwo" }
    [⟨ascii "X-Note", ascii "a: b"⟩, ⟨ascii "Content-Type", ascii "text/plain"⟩,
      ⟨ascii "Content-Length", ascii "10"⟩]
    (by decide) (by decide) (by decide) (by decide)
    (by
      intro k v hkv
      have hmem : (⟨k, v⟩ : Entry) ∈
          ([⟨ascii "Content-Length", ascii "999"⟩, ⟨ascii "X-Note", ascii "a: b"⟩] :
            List Entry) := by
        have hro : RangeOrder ((Finmap.singleton (ascii "X-Note") (ascii "a: b")).insert
            (ascii "Content-Length") (ascii "999"))
            [⟨ascii "Content-Length", ascii "999"⟩, ⟨ascii "X-Note", ascii "a: b"⟩] := by
          decide
        exact (mem_of_rangeOrder hro ⟨k, v⟩).mpr hkv
      simp only [List.mem_cons, List.mem_singleton, List.not_mem_nil, or_false,
        Sigma.mk.inj_iff, heq_eq_eq] at hmem
      rcases hmem with ⟨rfl, rfl⟩ | ⟨rfl, rfl⟩ <;> decide)
    (by decide)

/-! ## Lemmas: the cases of the router -/

theorem handleRequest_eq_body (fs : FileStore) (request : Request) (directory : GoString) :
    handleRequest fs request directory =
      (handleRequest.case request).body fs request directory := by
  unfold handleRequest
  cases handleRequest.case request <;> rfl

theorem guard_of_case (request : Request) :
    (handleRequest.case request).guard request = true := by
  unfold handleRequest.case
  split_ifs with h1 h2 h3 h4 h5
  · simpa [Case.guard] using h1
  · simpa [Case.guard] using h2
  · simpa [Case.guard] using h3
  · simpa [Case.guard] using h4
  · simpa [Case.guard] using h5
  · rfl

/-- A rule whose guard holds is the case that handleRequest takes. -/
theorem case_of_guard (request : Request) (c : Case) (hc : c ≠ .default)
    (hg : c.guard request = true) : handleRequest.case request = c := by
  cases c with
  | echo =>
    simp only [Case.guard, decide_eq_true_eq] at hg
    exact case_echo request hg.1 hg.2
  | userAgent =>
    simp only [Case.guard, decide_eq_true_eq] at hg
    exact case_userAgent request hg.1 hg.2
  | getFiles =>
    simp only [Case.guard, decide_eq_true_eq] at hg
    exact case_getFiles request hg.1 hg.2
  | postFiles =>
    simp only [Case.guard, decide_eq_true_eq] at hg
    exact case_postFiles request hg.1 hg.2
  | root =>
    simp only [Case.guard, decide_eq_true_eq] at hg
    exact case_root request hg
  | default => exact absurd rfl hc

theorem ne_default_of_mem_routingRules (c : Case) (h : c ∈ routingRules) : c ≠ .default := by
  intro hc
  subst hc
  revert h
  decide

theorem mem_routingRules_of_ne_default (c : Case) (h : c ≠ .default) : c ∈ routingRules := by
  cases c <;> first | exact absurd rfl h | decide

theorem perm_pair {α : Type} {a b : α} {l : List α} (h : l.Perm [a, b]) :
    l = [a, b] ∨ l = [b, a] := by
  have hlen := h.length_eq
  match l, hlen with
  | [x, y], _ =>
    have hx : x ∈ [a, b] := h.subset (List.mem_cons_self x [y])
    rcases List.mem_cons.mp hx with rfl | hx
    · left
      have := (List.perm_cons x).mp h
      rw [List.perm_singleton.mp this]
    · have hxb : x = b := by simpa using hx
      subst hxb
      right
      have h2 : [x, y].Perm [x, a] := h.trans (List.Perm.swap x a [])
      have := (List.perm_cons x).mp h2
      rw [List.perm_singleton.mp this]

theorem rangeOrder_pair (k1 k2 v1 v2 : GoString) (hk : k2 ≠ k1) (order : List Entry)
    (h : RangeOrder ((Finmap.singleton k1 v1).insert k2 v2) order) :
    order = [⟨k2, v2⟩, ⟨k1, v1⟩] ∨ order = [⟨k1, v1⟩, ⟨k2, v2⟩] := by
  apply perm_pair
  have hnot : k2 ∉ (Finmap.singleton k1 v1 : HeaderMap) := by
    rw [Finmap.mem_singleton]
    exact hk
  have hent : ((Finmap.singleton k1 v1 : HeaderMap).insert k2 v2).entries =
      ((⟨k2, v2⟩ : Entry) ::ₘ (Finmap.singleton k1 v1 : HeaderMap).entries) :=
    Finmap.insert_entries_of_neg hnot
  unfold RangeOrder at h
  rw [hent] at h
  exact Multiset.coe_eq_coe.mp h

/-- C18: the guards of the routing rules 1 to 5 are pairwise mutually exclusive: for every
request, two rules whose guards both hold are the same rule; so a dispatcher that tries the
five rules in any order before the 404 default returns the same response, and leaves the
same store, as handleRequest. -/
theorem dispatch_order_irrelevant :
    (∀ (request : Request) (c1 c2 : Case), c1 ∈ routingRules → c2 ∈ routingRules →
      c1.guard request = true → c2.guard request = true → c1 = c2) ∧
    (∀ cases : List Case, cases.Perm routingRules →
      ∀ (fs : FileStore) (request : Request) (directory : GoString),
        dispatchInOrder cases fs request directory = handleRequest fs request directory) := by
  constructor
  · intro request c1 c2 h1 h2 g1 g2
    rw [← case_of_guard request c1 (ne_default_of_mem_routingRules c1 h1) g1,
      ← case_of_guard request c2 (ne_default_of_mem_routingRules c2 h2) g2]
  · intro cases hperm fs request directory
    rw [handleRequest_eq_body]
    unfold dispatchInOrder
    cases hfind : cases.find? (fun c => c.guard request) with
    | none =>
      have hall := List.find?_eq_none.mp hfind
      by_cases hd : handleRequest.case request = .default
      · rw [hd]
      · have hmem : handleRequest.case request ∈ cases :=
          hperm.symm.subset (mem_routingRules_of_ne_default _ hd)
        exact absurd (guard_of_case request) (by simpa using hall _ hmem)
    | some c =>
      have hg : c.guard request = true := by simpa using List.find?_some hfind
      have hmem : c ∈ routingRules := hperm.subset (List.mem_of_find?_eq_some hfind)
      rw [case_of_guard request c (ne_default_of_mem_routingRules c hmem) hg]

theorem dispatch_order_irrelevant_witness :
    [Case.root, Case.postFiles, Case.getFiles, Case.userAgent, Case.echo].Perm routingRules ∧
    dispatchInOrder [Case.root, Case.postFiles, Case.getFiles, Case.userAgent, Case.echo]
        FileStore.empty { Method := ascii "GET", Path := ascii "/echo/abc" } (ascii "/tmp") =
      handleRequest FileStore.empty { Method := ascii "GET", Path := ascii "/echo/abc" }
        (ascii "/tmp") :=
  ⟨by decide,
    dispatch_order_irrelevant.2 [Case.root, Case.postFiles, Case.getFiles, Case.userAgent,
      Case.echo] (by decide) FileStore.empty
      { Method := ascii "GET", Path := ascii "/echo/abc" } (ascii "/tmp")⟩

/-- C19: for every request, directory and store, the response of handleRequest has as status
one of the four constants "200 OK", "201 Created", "404 Not Found" and "500 Internal Server
Error", and as headers either the nil map or exactly Content-Type:
application/octet-stream, never a map holding Content-Length; and whatever the order in
which the decorated headers are written, the serialised response has exactly two header
lines, one named Content-Type and one named Content-Length. -/
theorem handleRequest_response_shape (fs : FileStore) (request : Request)
    (directory : GoString) :
    ((handleRequest fs request directory).1.StatusCode = ascii "200 OK" ∨
      (handleRequest fs request directory).1.StatusCode = ascii "201 Created" ∨
      (handleRequest fs request directory).1.StatusCode = ascii "404 Not Found" ∨
      (handleRequest fs request directory).1.StatusCode =
        ascii "500 Internal Server Error") ∧
    ((handleRequest fs request directory).1.Headers = none ∨
      (handleRequest fs request directory).1.Headers =
        some (Finmap.singleton (ascii "Content-Type") (ascii "application/octet-stream"))) ∧
    (∀ h : HeaderMap, (handleRequest fs request directory).1.Headers = some h →
      ascii "Content-Length" ∉ h) ∧
    (∀ order, RangeOrder (writeResponse.headers (handleRequest fs request directory).1) order →
      order.map (·.1) = [ascii "Content-Length", ascii "Content-Type"] ∨
      order.map (·.1) = [ascii "Content-Type", ascii "Content-Length"]) := by
  have hshape : ∃ status body,
      (status = ascii "200 OK" ∨ status = ascii "201 Created" ∨
        status = ascii "404 Not Found" ∨ status = ascii "500 Internal Server Error") ∧
      ((handleRequest fs request directory).1 = { StatusCode := status, Body := body } ∨
        (handleRequest fs request directory).1 =
          { StatusCode := status,
            Headers := some (Finmap.singleton (ascii "Content-Type")
              (ascii "application/octet-stream")),
            Body := body }) := by
    rw [handleRequest_eq_body]
    cases handleRequest.case request with
    | echo => exact ⟨_, _, Or.inl rfl, Or.inl rfl⟩
    | userAgent => exact ⟨_, _, Or.inl rfl, Or.inl rfl⟩
    | getFiles =>
      simp only [Case.body, handleGetFiles]
      cases fs.ReadFile (directory ++ ascii "/" ++ TrimPrefix request.Path (ascii "/files/"))
        with
      | error e => exact ⟨_, _, Or.inr (Or.inr (Or.inl rfl)), Or.inl rfl⟩
      | ok data => exact ⟨_, _, Or.inl rfl, Or.inr rfl⟩
    | postFiles =>
      simp only [Case.body, handlePostFiles]
      cases fs.WriteFile (directory ++ ascii "/" ++ TrimPrefix request.Path (ascii "/files/"))
        request.Body with
      | error e => exact ⟨_, _, Or.inr (Or.inr (Or.inr rfl)), Or.inl rfl⟩
      | ok fs' => exact ⟨_, _, Or.inr (Or.inl rfl), Or.inl rfl⟩
    | root => exact ⟨_, _, Or.inl rfl, Or.inl rfl⟩
    | default => exact ⟨_, _, Or.inr (Or.inr (Or.inl rfl)), Or.inl rfl⟩
  obtain ⟨status, body, hstatus, hresp | hresp⟩ := hshape
  · rw [hresp]
    refine ⟨hstatus, Or.inl rfl, (fun h hh => by cases hh), ?_⟩
    intro order hord
    rw [headers_of_nil] at hord
    rcases rangeOrder_pair _ _ _ _ (Ne.symm contentType_ne_contentLength) order hord with
      h | h
    · left; rw [h]; rfl
    · right; rw [h]; rfl
  · rw [hresp]
    refine ⟨hstatus, Or.inr rfl, ?_, ?_⟩
    · intro h hh
      cases hh
      rw [Finmap.mem_singleton]
      exact Ne.symm contentType_ne_contentLength
    · intro order hord
      have hhead : writeResponse.headers
          { StatusCode := status,
            Headers := some (Finmap.singleton (ascii "Content-Type")
              (ascii "application/octet-stream")),
            Body := body } =
          (Finmap.singleton (ascii "Content-Type")
            (ascii "application/octet-stream")).insert (ascii "Content-Length")
            (formatInt body.length) := by
        unfold writeResponse.headers
        simp only []
        rw [if_pos ((Finmap.mem_singleton _ _ _).mpr rfl)]
      rw [hhead] at hord
      rcases rangeOrder_pair _ _ _ _ (Ne.symm contentType_ne_contentLength) order hord with
        h | h
      · left; rw [h]; rfl
      · right; rw [h]; rfl

theorem handleRequest_response_shape_witness :
    RangeOrder
      (writeResponse.headers
        (handleRequest ⟨Finmap.singleton (ascii "/tmp/a") (ascii "Content-Length: 9"),
            fun _ => none, fun _ => .notExist⟩
          { Method := ascii "GET", Path := ascii "/files/a" } (ascii "/tmp")).1)
      [⟨ascii "Content-Type", ascii "application/octet-stream"⟩,
        ⟨ascii "Content-Length", ascii "17"⟩] ∧
    (([⟨ascii "Content-Type", ascii "application/octet-stream"⟩,
        ⟨ascii "Content-Length", ascii "17"⟩] : List Entry).map (·.1) =
        [ascii "Content-Length", ascii "Content-Type"] ∨
      ([⟨ascii "Content-Type", ascii "application/octet-stream"⟩,
        ⟨ascii "Content-Length", ascii "17"⟩] : List Entry).map (·.1) =
        [ascii "Content-Type", ascii "Content-Length"]) :=
  ⟨by decide,
    (handleRequest_response_shape
      ⟨Finmap.singleton (ascii "/tmp/a") (ascii "Content-Length: 9"),
          fun _ => none, fun _ => .notExist⟩
      { Method := ascii "GET", Path := ascii "/files/a" } (ascii "/tmp")).2.2.2 _
      (by decide)⟩

end HttpServer
